import Mathlib

/-!
Verification development for a tree-walking interpreter ("Brewin") consisting of
three Python modules: `env_v4.py` (the environment chain), `type_valuev4.py`
(values, objects, closures), and `interpreterv4.py` (the evaluator).

The embedding is shallow and executable:
* Python `Value` objects become an immutable `Value` structure holding a type
  tag `t` and a payload `v`.  Mutable heap entities (`Object`, `Closure`) live
  in explicit heaps inside the interpreter state `St`; a payload refers to them
  by index (its address).  Python `is`-identity of two heap entities is
  equality of addresses.
* Python dicts become association lists with insertion-order update
  (`dictInsert`); `self.environment` (innermost scope LAST, iterated with
  `reversed`) becomes a list of scopes with the innermost scope FIRST, so the
  Lean list order is exactly Python's iteration order.
* The recursive evaluator is embedded with an explicit fuel parameter that is
  decremented on every recursive call; exhausting fuel yields the distinguished
  error `Err.noFuel`.  Python runtime errors raised by `intbase`
  (`ErrorType.NAME_ERROR` / `ErrorType.TYPE_ERROR`) become `Err.nameErr` /
  `Err.typeErr`; uncaught host exceptions (`AttributeError`,
  `ZeroDivisionError`, ...) become `Err.hostErr`.
* One deliberate simplification: Python `Value` cells are themselves mutable
  and aliasable (reference parameters bind the caller's cell, and
  `Value.set` mutates a cell in place).  Here values are immutable and cell
  mutation is modelled as rebinding at the scope where the name was found
  (`env.get` and `env.set` search scopes in the same order, so the rebinding
  hits exactly the cell Python would mutate).  No theorem below exercises
  cell aliasing through reference parameters.
-/

namespace Brewin

/-- Language value kinds, mirroring `Type` in `type_valuev4.py`. -/
inductive Ty where
  | int | bool | string | closure | nil | object
deriving DecidableEq, Repr

/-- Runtime payload of a `Value`: a primitive, `None`, or a heap address of an
`Object` (`pObj`) or `Closure` (`pClos`). -/
inductive Payload where
  | pInt (n : Int)
  | pBool (b : Bool)
  | pStr (s : String)
  | pNone
  | pObj (a : Nat)
  | pClos (a : Nat)
deriving DecidableEq, Repr

/-- Mirrors class `Value` of `type_valuev4.py`: a type tag `t` and a value `v`. -/
structure Value where
  t : Ty
  v : Payload
deriving DecidableEq, Repr

/-- The kind a payload intrinsically has; a well-formed `Value` has `t = kindOf v`. -/
def kindOf : Payload → Ty
  | .pInt _ => .int
  | .pBool _ => .bool
  | .pStr _ => .string
  | .pNone => .nil
  | .pObj _ => .object
  | .pClos _ => .closure

/-- Well-formedness of a `Value`: the tag matches the payload.  The interpreter
only ever constructs well-formed values, except that an assignment can mutate a
`Closure`'s own `type` field (see `assign`), which does not affect `Value.t`. -/
def wfV (v : Value) : Prop := v.t = kindOf v.v

instance (v : Value) : Decidable (wfV v) := by unfold wfV; infer_instance

def VNil : Value := ⟨.nil, .pNone⟩       -- Interpreter.NIL_VALUE
def VTrue : Value := ⟨.bool, .pBool true⟩ -- Interpreter.TRUE_VALUE
def intV (n : Int) : Value := ⟨.int, .pInt n⟩
def boolV (b : Bool) : Value := ⟨.bool, .pBool b⟩
def strV (s : String) : Value := ⟨.string, .pStr s⟩

/-- A Python dict with string keys: an association list with insertion order,
where assignment (`d[k] = v`) overwrites in place or appends at the end. -/
abbrev Dict := List (String × Value)

/-- Python `d[k] = v` on an insertion-ordered dict. -/
def dictInsert : Dict → String → Value → Dict
  | [], k, v => [(k, v)]
  | (k1, v1) :: rest, k, v =>
      if k1 = k then (k, v) :: rest else (k1, v1) :: dictInsert rest k v

/-- One lexical scope: a dict from names to values. -/
abbrev Scope := Dict

/-- The environment chain (`EnvironmentManager.environment`).  Innermost scope
first; Python stores innermost last and always iterates via `reversed`. -/
abbrev Env := List Scope

/-- `EnvironmentManager.get`: search scopes innermost to outermost, first hit wins. -/
def envGet : Env → String → Option Value
  | [], _ => none
  | scope :: rest, s =>
      match List.lookup s scope with
      | some v => some v
      | none => envGet rest s

/-- Does some scope of the chain bind `s`? -/
def envContains (env : Env) (s : String) : Bool :=
  env.any (fun scope => (List.lookup s scope).isSome)

/-- Overwrite the binding of `s` in the nearest (first) scope that has one. -/
def envOverwrite : Env → String → Value → Env
  | [], _, _ => []
  | scope :: rest, s, v =>
      if (List.lookup s scope).isSome then dictInsert scope s v :: rest
      else scope :: envOverwrite rest s v

/-- `EnvironmentManager.set` (the `force_new_var_creation` flag is never passed
by the interpreter, so it is not modelled): overwrite the nearest binding, or
create in the innermost scope when no scope binds the name.  Python would raise
`IndexError` on an empty chain; the chain is never empty at a `set`. -/
def envSet (env : Env) (s : String) (v : Value) : Env :=
  if envContains env s then envOverwrite env s v
  else
    match env with
    | [] => []
    | scope :: rest => dictInsert scope s v :: rest

/-- `EnvironmentManager.create`: unconditionally bind in the innermost scope. -/
def envCreate (env : Env) (s : String) (v : Value) : Env :=
  match env with
  | [] => []
  | scope :: rest => dictInsert scope s v :: rest

/-- `EnvironmentManager.__enumerate` body: yield pairs in order, skipping names
already seen. -/
def dedupKeys : List (String × Value) → List String → List (String × Value)
  | [], _ => []
  | (k, v) :: rest, seen =>
      if k ∈ seen then dedupKeys rest seen
      else (k, v) :: dedupKeys rest (k :: seen)

/-- Flatten the chain innermost-first (Python iterates `reversed(environment)`
then each scope's items). -/
def envItems : Env → List (String × Value)
  | [] => []
  | scope :: rest => scope ++ envItems rest

/-- `EnvironmentManager.__iter__`: every visible binding, innermost occurrence
of each name first. -/
def envEnumerate (env : Env) : List (String × Value) :=
  dedupKeys (envItems env) []

/-! ## Abstract syntax

The parser (`brewparse.py`) is an external collaborator; statement and
expression nodes are embedded with one constructor per `elem_type` the
interpreter dispatches on. -/

/-- A formal parameter: its name, and whether it is declared by-reference
(`refarg` nodes versus plain `arg` nodes). -/
structure FormalArg where
  name : String
  isRef : Bool
deriving DecidableEq, Repr

mutual
inductive Expr where
  | eInt (n : Int)
  | eStr (s : String)
  | eBool (b : Bool)
  | eNil
  | eVar (name : String)
  | eFCall (name : String) (args : List Expr)
  | eBin (op : String) (l r : Expr)
  | eNeg (e : Expr)
  | eNot (e : Expr)
  | eLambda (args : List FormalArg) (body : List Stmt)
  | eObj
  | eMCall (objref : String) (mname : String) (args : List Expr)

inductive Stmt where
  | sFCall (name : String) (args : List Expr)
  | sAssign (target : String) (e : Expr)
  | sMCall (objref : String) (mname : String) (args : List Expr)
  | sReturn (e : Option Expr)
  | sIf (cond : Expr) (thens : List Stmt) (elses : Option (List Stmt))
  | sWhile (cond : Expr) (body : List Stmt)
end

/-- The part of a function or lambda AST node the interpreter reads:
`ast.get("args")` and `ast.get("statements")`. -/
structure FuncAst where
  args : List FormalArg
  statements : List Stmt

/-- A top-level function definition. -/
structure FuncDef where
  name : String
  ast : FuncAst

/-- Mirrors class `Object` of `type_valuev4.py`: a field dict and an optional
prototype link (always an Object-typed `Value` when set by `assign`).  The
`type` attribute is constantly `Type.OBJECT` and never mutated (the only
mutation site, line 232 of `interpreterv4.py`, is dead code — see `assign`),
so it is not stored. -/
structure Object where
  values : Dict
  proto : Option Value

/-- Mirrors class `Closure` of `type_valuev4.py`.  `captured_env` is the
snapshot taken at creation; `type` starts as `Ty.closure` but `assign` mutates
it when the variable holding the closure is overwritten with a non-closure. -/
structure Closure where
  captured_env : Dict
  func_ast : FuncAst
  type : Ty

/-- Runtime errors: `intbase` name/type errors, uncaught host exceptions
(`AttributeError`, `ZeroDivisionError`, `ValueError`, ...), and fuel
exhaustion of the embedding. -/
inductive Err where
  | nameErr | typeErr | hostErr | noFuel
deriving DecidableEq, Repr

abbrev M (α : Type) := Except Err α

/-- Interpreter state: the environment chain, the two heaps (addresses are
list indices), the function table (name to insertion-ordered arity dict of
closure addresses), and the I/O streams of `intbase`. -/
structure St where
  env : Env
  objs : List Object
  clos : List Closure
  funcs : List (String × List (Nat × Nat))
  outputs : List String
  inputs : List String

def getObj (st : St) (a : Nat) : M Object :=
  match st.objs[a]? with
  | some o => pure o
  | none => throw .hostErr

def getClos (st : St) (a : Nat) : M Closure :=
  match st.clos[a]? with
  | some c => pure c
  | none => throw .hostErr

def allocObj (st : St) (o : Object) : St × Nat :=
  ({ st with objs := st.objs ++ [o] }, st.objs.length)

def allocClos (st : St) (c : Closure) : St × Nat :=
  ({ st with clos := st.clos ++ [c] }, st.clos.length)

/-! ## Pure helpers of the evaluator -/

/-- Split a character list at its first `.`: `none` when there is no dot,
otherwise the parts before and after it. -/
def splitDotAux : List Char → Option (List Char × List Char)
  | [] => none
  | c :: rest =>
      if c = '.' then some ([], rest)
      else
        match splitDotAux rest with
        | none => none
        | some (b, a) => some (c :: b, a)

/-- Python `var_name.split(".")` destructured into exactly two parts after an
`"." in var_name` test: no dot gives the name with an empty field; more than
one dot raises `ValueError` in Python (a host crash). -/
def splitDot (s : String) : M (String × String) :=
  match splitDotAux s.data with
  | none => pure (s, "")
  | some (b, a) =>
      if a.contains '.' then throw .hostErr else pure (⟨b⟩, ⟨a⟩)

/-- Python `==` on the payloads stored in `Value.v` (used by the per-type
operator lambdas `x.value() == y.value()`).  `bool` is an `int` subclass in
Python, so `True == 1`; distinct heap entities compare by identity because
neither `Object` nor `Closure` defines `__eq__`. -/
def pyEq : Payload → Payload → Bool
  | .pInt n, .pInt m => n = m
  | .pInt n, .pBool b => n = (if b then 1 else 0)
  | .pBool b, .pInt n => (if b then 1 else 0) = n
  | .pBool a, .pBool b => a = b
  | .pStr a, .pStr b => a = b
  | .pNone, .pNone => true
  | .pObj a, .pObj b => a = b
  | .pClos a, .pClos b => a = b
  | _, _ => false

/-- Python `left_value_obj.value() is right_value_obj.value()` for the
object-identity comparison in `__eval_op`: identity of heap entities is
address equality; a heap entity is never identical to a primitive or `None`. -/
def payloadIs : Payload → Payload → Bool
  | .pObj a, .pObj b => a = b
  | .pClos a, .pClos b => a = b
  | .pNone, .pNone => true
  | _, _ => false

/-- `Interpreter.__int_to_bool`: `Value(Type.BOOL, value.value() != 0)`.
Only applied to int-typed values. -/
def intToBool (v : Value) : Value :=
  match v.v with
  | .pInt n => ⟨.bool, .pBool (n ≠ 0)⟩
  | _ => ⟨.bool, .pBool true⟩

/-- `Interpreter.__bool_to_int`: `Value(Type.INT, 1 if value.value() else 0)`.
Only applied to bool-typed values. -/
def boolToInt (v : Value) : Value :=
  match v.v with
  | .pBool b => ⟨.int, .pInt (if b then 1 else 0)⟩
  | _ => ⟨.int, .pInt 1⟩

/-- The operator keys of `op_to_lambda[Type.BOOL]`. -/
def boolOps : List String := ["&&", "||", "==", "!="]

/-- The operator keys of `op_to_lambda[Type.INT]`. -/
def intOps : List String := ["+", "-", "*", "/", "==", "!=", "<", "<=", ">", ">="]

/-- `Interpreter.__bin_op_promotion`: for operators present in the bool table,
coerce int operands to bool unless the operator is also an int operator and
both operands are ints; then, for operators present in the int table, coerce
bool operands to int. -/
def binOpPromotion (op : String) (o1 o2 : Value) : Value × Value :=
  let p :=
    if op ∈ boolOps then
      if op ∈ intOps ∧ o1.t = .int ∧ o2.t = .int then (o1, o2)
      else (if o1.t = .int then intToBool o1 else o1,
            if o2.t = .int then intToBool o2 else o2)
    else (o1, o2)
  if op ∈ intOps then
    (if p.1.t = .bool then boolToInt p.1 else p.1,
     if p.2.t = .bool then boolToInt p.2 else p.2)
  else p

/-- `Interpreter.__unary_op_promotion`. -/
def unaryOpPromotion (op : String) (o1 : Value) : Value :=
  if op = "!" ∧ o1.t = .int then intToBool o1 else o1

/-- `Interpreter.__compatible_types`: `==`/`!=` compare anything against
anything; all other operators need equal types. -/
def compatibleTypes (op : String) (o1 o2 : Value) : Bool :=
  if op = "==" ∨ op = "!=" then true else o1.t = o2.t

/-- Integer arithmetic entries of `op_to_lambda[Type.INT]`; `//` is Python
floor division, raising `ZeroDivisionError` on a zero divisor. -/
def intArith (op : String) (x y : Value) : M Value :=
  match x.v, y.v with
  | .pInt n, .pInt m =>
      match op with
      | "+" => pure ⟨x.t, .pInt (n + m)⟩
      | "-" => pure ⟨x.t, .pInt (n - m)⟩
      | "*" => pure ⟨x.t, .pInt (n * m)⟩
      | "/" => if m = 0 then throw .hostErr else pure ⟨x.t, .pInt (Int.fdiv n m)⟩
      | "<" => pure ⟨.bool, .pBool (n < m)⟩
      | "<=" => pure ⟨.bool, .pBool (n ≤ m)⟩
      | ">" => pure ⟨.bool, .pBool (n > m)⟩
      | ">=" => pure ⟨.bool, .pBool (n ≥ m)⟩
      | _ => throw .hostErr
  | _, _ => throw .hostErr

/-- `op_to_lambda` lookup: `opLookup t op` is the entry of the per-type
operator table, `none` when the operator is not a key of that type's table.
The `Type.OBJECT` entries are unreachable (objects are intercepted earlier in
`__eval_op`) and thus not modelled. -/
def opLookup (t : Ty) (op : String) : Option (Value → Value → M Value) :=
  match t with
  | .int =>
      if op = "==" then some (fun x y => pure ⟨.bool, .pBool (pyEq x.v y.v)⟩)
      else if op = "!=" then some (fun x y => pure ⟨.bool, .pBool (!pyEq x.v y.v)⟩)
      else if op ∈ ["+", "-", "*", "/", "<", "<=", ">", ">="] then some (intArith op)
      else none
  | .string =>
      if op = "+" then
        some (fun x y =>
          match x.v, y.v with
          | .pStr a, .pStr b => pure ⟨x.t, .pStr (a ++ b)⟩
          | _, _ => throw .hostErr)
      else if op = "==" then some (fun x y => pure ⟨.bool, .pBool (pyEq x.v y.v)⟩)
      else if op = "!=" then some (fun x y => pure ⟨.bool, .pBool (!pyEq x.v y.v)⟩)
      else none
  | .bool =>
      if op = "&&" then
        some (fun x y =>
          match x.v, y.v with
          | .pBool a, .pBool b => pure ⟨x.t, .pBool (a && b)⟩
          | _, _ => throw .hostErr)
      else if op = "||" then
        some (fun x y =>
          match x.v, y.v with
          | .pBool a, .pBool b => pure ⟨x.t, .pBool (a || b)⟩
          | _, _ => throw .hostErr)
      else if op = "==" then some (fun x y => pure ⟨.bool, .pBool (pyEq x.v y.v)⟩)
      else if op = "!=" then some (fun x y => pure ⟨.bool, .pBool (!pyEq x.v y.v)⟩)
      else none
  | .nil =>
      if op = "==" then some (fun x y => pure ⟨.bool, .pBool (pyEq x.v y.v)⟩)
      else if op = "!=" then some (fun x y => pure ⟨.bool, .pBool (!pyEq x.v y.v)⟩)
      else none
  | .closure =>
      if op = "==" then some (fun x y => pure ⟨.bool, .pBool (pyEq x.v y.v)⟩)
      else if op = "!=" then some (fun x y => pure ⟨.bool, .pBool (!pyEq x.v y.v)⟩)
      else none
  | .object => none

/-- The non-evaluation tail of `Interpreter.__eval_op`, applied to the two
already-evaluated operands: object interception with identity comparison,
then promotion, compatibility check, table lookup, and application. -/
def applyBinOp (op : String) (lv rv : Value) : M Value :=
  if lv.t = .object ∨ rv.t = .object then
    if op ≠ "==" ∧ op ≠ "!=" then throw .typeErr
    else
      let e := payloadIs lv.v rv.v
      pure ⟨.bool, .pBool (if op = "==" then e else !e)⟩
  else
    let p := binOpPromotion op lv rv
    if ¬ compatibleTypes op p.1 p.2 then throw .typeErr
    else
      match opLookup p.1.t op with
      | none => throw .typeErr
      | some f => f p.1 p.2

/-- `get_printable` of `type_valuev4.py`: `None` (no printable form) for
closures, objects and nil. -/
def getPrintable (val : Value) : Option String :=
  match val.t, val.v with
  | .int, .pInt n => some (toString n)
  | .string, .pStr s => some s
  | .bool, .pBool b => some (if b then "true" else "false")
  | _, _ => none

/-- `result.value()` used as a Python truth value for if/while conditions
(only reached on bool-typed values after coercion). -/
def truthy (v : Value) : Bool :=
  match v.v with
  | .pBool b => b
  | _ => false

/-! ## Deep copy

`copy.deepcopy` on a `Value`: the wrapper is copied, primitives are immutable,
and `Object`/`Closure` payloads are recursively duplicated as fresh heap
entities.  Attributes are copied in `__dict__` insertion order (for `Object`:
`values`, then `proto`; for `Closure`: `captured_env`, `func_ast`, `type`).
Python's memo table (which preserves internal sharing and survives cycles) is
not modelled: each occurrence is copied separately and a cyclic structure
exhausts the fuel.  No theorem below depends on internal sharing of a copy. -/

mutual
def deepcopyValue (fuel : Nat) (st : St) (v : Value) : M (St × Value) :=
  match fuel with
  | 0 => throw .noFuel
  | fuel + 1 =>
    match v.v with
    | .pObj a => do
        let od ← getObj st a
        let (st1, fields) ← deepcopyDict fuel st od.values
        let (st2, pr) ←
          match od.proto with
          | none => pure (st1, (none : Option Value))
          | some p => do
              let r ← deepcopyValue fuel st1 p
              pure (r.1, some r.2)
        let r := allocObj st2 ⟨fields, pr⟩
        pure (r.1, ⟨v.t, .pObj r.2⟩)
    | .pClos a => do
        let cd ← getClos st a
        let (st1, cap) ← deepcopyDict fuel st cd.captured_env
        let r := allocClos st1 ⟨cap, cd.func_ast, cd.type⟩
        pure (r.1, ⟨v.t, .pClos r.2⟩)
    | _ => pure (st, v)
termination_by structural fuel

def deepcopyDict (fuel : Nat) (st : St) (d : Dict) : M (St × Dict) :=
  match fuel with
  | 0 => throw .noFuel
  | fuel + 1 =>
    match d with
    | [] => pure (st, [])
    | (k, v) :: rest => do
        let (st1, v1) ← deepcopyValue fuel st v
        let (st2, r) ← deepcopyDict fuel st1 rest
        pure (st2, (k, v1) :: r)
termination_by structural fuel
end

/-! ## Name and method resolution helpers -/

/-- `Interpreter.__get_property_or_method`: the receiver's own field table
first, then the prototype chain.  Fueled because `proto` links can form a
cycle. -/
def getPropertyOrMethod (fuel : Nat) (st : St) (objv : Value) (name : String) : M Value :=
  match fuel with
  | 0 => throw .noFuel
  | fuel + 1 =>
    match objv.v with
    | .pObj a => do
        let od ← getObj st a
        match List.lookup name od.values with
        | some v => pure v
        | none =>
            match od.proto with
            | some p =>
                if p.t = .object then getPropertyOrMethod fuel st p name
                else throw .nameErr
            | none => throw .nameErr
    | _ => throw .hostErr

/-- The inner `for val in obj_dict.keys()` scan of `__call_method`: the last
matching key wins (keys of a dict are unique, so this is plain lookup). -/
def loopFind (d : Dict) (name : String) : Option Value :=
  d.foldl (fun acc p => if p.1 = name then some p.2 else acc) none

/-- The `while target_closure is None and curr_proto is not None` loop of
`Interpreter.__call_method`: scan the current object's fields, then follow its
`proto` link.  Fueled because `proto` links can form a cycle. -/
def findInChain (fuel : Nat) (st : St) (curr : Option Value) (name : String) :
    M (Option Value) :=
  match fuel with
  | 0 => throw .noFuel
  | fuel + 1 =>
    match curr with
    | none => pure none
    | some cv =>
        match cv.v with
        | .pObj a => do
            let od ← getObj st a
            match loopFind od.values name with
            | some v => pure (some v)
            | none => findInChain fuel st od.proto name
        | _ => throw .hostErr

/-! ## Function table -/

/-- Source-order-preserving update of the inner arity dict. -/
def arityInsert : List (Nat × Nat) → Nat → Nat → List (Nat × Nat)
  | [], k, v => [(k, v)]
  | (k1, v1) :: rest, k, v =>
      if k1 = k then (k, v) :: rest else (k1, v1) :: arityInsert rest k v

/-- `self.func_name_to_ast[name][arity] = closure` including the creation of a
fresh inner dict for a new name. -/
def tableInsert (funcs : List (String × List (Nat × Nat))) (name : String)
    (ar : Nat) (addr : Nat) : List (String × List (Nat × Nat)) :=
  match funcs with
  | [] => [(name, [(ar, addr)])]
  | (n, d) :: rest =>
      if n = name then (n, arityInsert d ar addr) :: rest
      else (n, d) :: tableInsert rest name ar addr

/-- `Interpreter.__get_func_by_name`.  Returns the closure's heap address;
`none` models the Python `return None` path (name neither a function nor a
variable).  With `numParams = none` (a bare-name reference) a multiply
overloaded name is a name error and otherwise the first-inserted arity wins
(`next(iter(candidate_funcs))`); a closure-typed variable is checked against
`numParams` with Python's `int != None` being true. -/
def getFuncByName (st : St) (name : String) (numParams : Option Nat) : M (Option Nat) :=
  match List.lookup name st.funcs with
  | none =>
      match envGet st.env name with
      | none => pure none
      | some cv =>
          if cv.t ≠ .closure then throw .typeErr
          else
            match cv.v with
            | .pClos a => do
                let cd ← getClos st a
                if (some cd.func_ast.args.length) ≠ numParams then throw .typeErr
                else pure (some a)
            | _ => throw .hostErr
  | some cands =>
      match numParams with
      | none =>
          if cands.length > 1 then throw .nameErr
          else
            match cands with
            | [] => throw .hostErr  -- next(iter) on an empty dict; never built
            | (_, a) :: _ => pure (some a)
      | some np =>
          match List.lookup np cands with
          | none => throw .nameErr
          | some a => pure (some a)

/-- `Interpreter.__prepare_env_with_closed_variables`: install every captured
binding into the frame dict (overwriting what is already there — including a
pre-seeded `this`). -/
def prepareEnvClosed (captured : Dict) (init : Dict) : Dict :=
  captured.foldl (fun d p => dictInsert d p.1 p.2) init

/-- `Interpreter.__eval_name` (no expression evaluation happens inside, only
environment, heap and function-table lookups).  On a dotted name whose base is
unbound, Python calls `.type()` on `None`: `AttributeError`. -/
def evalName (fuel : Nat) (st : St) (name : String) : M (St × Value) := do
  let (var, field) ← splitDot name
  if field ≠ "" then
    match envGet st.env var with
    | none => throw .hostErr
    | some obj =>
        if obj.t = .object then
          if field = "proto" then
            match obj.v with
            | .pObj a => do
                let od ← getObj st a
                match od.proto with
                | none => throw .nameErr
                | some p => pure (st, p)
            | _ => throw .hostErr
          else do
            let v ← getPropertyOrMethod fuel st obj field
            pure (st, v)
        else throw .typeErr
  else
    match envGet st.env var with
    | some v => pure (st, v)
    | none => do
        let oc ← getFuncByName st var none
        match oc with
        | none => throw .nameErr
        | some a => pure (st, ⟨.closure, .pClos a⟩)

/-- Statement execution status (`ExecStatus` of `interpreterv4.py`). -/
inductive ExecStatus where
  | cont | ret
deriving DecidableEq, Repr

/-! ## The evaluator

Mutually recursive over an explicit fuel that is decremented on every call. -/

mutual
def evalExpr (fuel : Nat) (st : St) (e : Expr) : M (St × Value) :=
  match fuel with
  | 0 => throw .noFuel
  | fuel + 1 =>
    match e with
    | .eNil => pure (st, VNil)
    | .eInt n => pure (st, ⟨.int, .pInt n⟩)
    | .eStr s => pure (st, ⟨.string, .pStr s⟩)
    | .eBool b => pure (st, ⟨.bool, .pBool b⟩)
    | .eVar name => evalName fuel st name
    | .eFCall name args => callFunc fuel st name args
    | .eBin op l r => do
        -- __eval_op: left operand, then right, then the operator machinery
        let (st1, lv) ← evalExpr fuel st l
        let (st2, rv) ← evalExpr fuel st1 r
        let v ← applyBinOp op lv rv
        pure (st2, v)
    | .eNeg e1 => do
        -- __eval_unary with Type.INT and `lambda x: -1 * x`
        let (st1, v) ← evalExpr fuel st e1
        let v1 := unaryOpPromotion "neg" v
        if v1.t ≠ .int then throw .typeErr
        else
          match v1.v with
          | .pInt n => pure (st1, ⟨.int, .pInt (-1 * n)⟩)
          | _ => throw .hostErr
    | .eNot e1 => do
        -- __eval_unary with Type.BOOL and `lambda x: not x`
        let (st1, v) ← evalExpr fuel st e1
        let v1 := unaryOpPromotion "!" v
        if v1.t ≠ .bool then throw .typeErr
        else
          match v1.v with
          | .pBool b => pure (st1, ⟨.bool, .pBool (!b)⟩)
          | _ => throw .hostErr
    | .eLambda args body =>
        -- Value(Type.CLOSURE, Closure(expr_ast, self.env)); `Closure.__init__`
        -- captures every visible binding, deep-copying primitives (identity on
        -- immutable payloads) and sharing Object/Closure handles
        let r := allocClos st ⟨envEnumerate st.env, ⟨args, body⟩, .closure⟩
        pure (r.1, ⟨.closure, .pClos r.2⟩)
    | .eObj =>
        let r := allocObj st ⟨[], none⟩
        pure (r.1, ⟨.object, .pObj r.2⟩)
    | .eMCall o m args => callMethod fuel st o m args
termination_by structural fuel

def callFunc (fuel : Nat) (st : St) (name : String) (args : List Expr) :
    M (St × Value) :=
  match fuel with
  | 0 => throw .noFuel
  | fuel + 1 =>
    if name = "print" then callPrint fuel st args ""
    else if name = "inputi" ∨ name = "inputs" then callInput fuel st name args
    else do
      let oa ← getFuncByName st name (some args.length)
      match oa with
      | none => throw .nameErr
      | some a => do
          let cd ← getClos st a
          -- line 128: the Closure entity's own type tag, not the Value tag
          if cd.type ≠ .closure then throw .typeErr
          else do
            let e0 := prepareEnvClosed cd.captured_env []
            let (st1, frame) ← prepareParams fuel st cd.func_ast.args args e0
            let st2 : St := { st1 with env := frame :: st1.env }
            let (st3, _, rv) ← runStatements fuel st2 cd.func_ast.statements
            pure ({ st3 with env := st3.env.tail }, rv)
termination_by structural fuel

def callPrint (fuel : Nat) (st : St) (args : List Expr) (acc : String) :
    M (St × Value) :=
  match fuel with
  | 0 => throw .noFuel
  | fuel + 1 =>
    match args with
    | [] => pure ({ st with outputs := st.outputs ++ [acc] }, VNil)
    | a :: rest => do
        let (st1, v) ← evalExpr fuel st a
        match getPrintable v with
        | none => throw .hostErr  -- str + None: TypeError
        | some s => callPrint fuel st1 rest (acc ++ s)
termination_by structural fuel

def callInput (fuel : Nat) (st : St) (name : String) (args : List Expr) :
    M (St × Value) :=
  match fuel with
  | 0 => throw .noFuel
  | fuel + 1 => do
    let st1 ←
      match args with
      | [] => pure st
      | [a] => do
          let (s1, v) ← evalExpr fuel st a
          match getPrintable v with
          | none => throw .hostErr
          | some s => pure { s1 with outputs := s1.outputs ++ [s] }
      | _ => throw .nameErr
    match st1.inputs with
    | [] => throw .hostErr  -- get_input with exhausted input
    | inp :: rest =>
        let st2 := { st1 with inputs := rest }
        if name = "inputi" then
          match inp.toInt? with
          | some n => pure (st2, ⟨.int, .pInt n⟩)
          | none => throw .hostErr  -- int(inp): ValueError
        else pure (st2, ⟨.string, .pStr inp⟩)
termination_by structural fuel

def callMethod (fuel : Nat) (st : St) (objref : String) (mname : String)
    (args : List Expr) : M (St × Value) :=
  match fuel with
  | 0 => throw .noFuel
  | fuel + 1 =>
    match envGet st.env objref with
    | none => throw .nameErr
    | some obj =>
        if obj.t ≠ .object then throw .typeErr
        else do
          let tc ← findInChain fuel st (some obj) mname
          match tc with
          | some m =>
              if m.t ≠ .closure then throw .typeErr
              else
                match m.v with
                | .pClos ca => do
                    let cd ← getClos st ca
                    -- new_env = {"this": obj}, then captured, then params
                    let f1 := prepareEnvClosed cd.captured_env
                                (dictInsert [] "this" obj)
                    let (st1, frame) ← prepareParams fuel st cd.func_ast.args args f1
                    let st2 : St := { st1 with env := frame :: st1.env }
                    let (st3, _, rv) ← runStatements fuel st2 cd.func_ast.statements
                    pure ({ st3 with env := st3.env.tail }, rv)
                | _ => throw .hostErr
          | none => throw .nameErr
termination_by structural fuel

def prepareParams (fuel : Nat) (st : St) (formals : List FormalArg)
    (actuals : List Expr) (acc : Dict) : M (St × Dict) :=
  match fuel with
  | 0 => throw .noFuel
  | fuel + 1 =>
    if formals.length ≠ actuals.length then throw .nameErr
    else bindParams fuel st formals actuals acc
termination_by structural fuel

def bindParams (fuel : Nat) (st : St) (formals : List FormalArg)
    (actuals : List Expr) (acc : Dict) : M (St × Dict) :=
  match fuel with
  | 0 => throw .noFuel
  | fuel + 1 =>
    match formals, actuals with
    | [], _ => pure (st, acc)
    | _, [] => pure (st, acc)
    | f :: fr, a :: ar => do
        let (st1, v0) ← evalExpr fuel st a
        let (st2, v) ←
          if f.isRef then pure (st1, v0)  -- REFARG: the evaluated Value itself
          else deepcopyValue fuel st1 v0  -- by value: deep copy
        bindParams fuel st2 fr ar (dictInsert acc f.name v)
termination_by structural fuel

def assign (fuel : Nat) (st : St) (target : String) (e : Expr) : M St :=
  match fuel with
  | 0 => throw .noFuel
  | fuel + 1 => do
    -- line 189: src = copy.copy(eval(expr)); a shallow Value copy is the
    -- identity on immutable values
    let (st1, src) ← evalExpr fuel st e
    let (var, field) ← splitDot target
    let tgt := envGet st1.env var
    -- line 194: `if field != "" and target_value_obj.t != Type.OBJECT`.  On an
    -- unbound name the `.t` access raises AttributeError on None, so the
    -- implicit-object-creation branch of lines 198-210 is unreachable for
    -- every dotted target.
    if field ≠ "" then
      match tgt with
      | none => throw .hostErr
      | some tv =>
          if tv.t ≠ .object then throw .typeErr
          else
            -- lines 198 and 211 cannot fire here; line 214 object branch:
            if field = "proto" then
              if src.t = .nil ∨ src.t = .string then throw .nameErr
              else if src.t ≠ .object then throw .typeErr
              else
                match tv.v with
                | .pObj a => do
                    let od ← getObj st1 a
                    pure { st1 with
                           objs := st1.objs.set a { od with proto := some src } }
                | _ => throw .hostErr
            else
              match tv.v with
              | .pObj a => do
                  let od ← getObj st1 a
                  pure { st1 with
                         objs := st1.objs.set a
                           { od with values := dictInsert od.values field src } }
              | _ => throw .hostErr
    else
      match tgt with
      | none =>
          -- line 198 needs field == 'proto' (false here); line 211:
          pure { st1 with env := envSet st1.env var src }
      | some tv => do
          -- line 228 else-branch.  Line 230-231: overwriting a closure-typed
          -- variable with a non-closure first mutates the Closure heap
          -- entity's own type tag.  Line 232-233 compares a Value object
          -- against a Type enum member, which is always False in Python:
          -- dead, not modelled.
          let st2 ←
            if tv.t = .closure ∧ src.t ≠ .closure then
              match tv.v with
              | .pClos a => do
                  let cd ← getClos st1 a
                  pure { st1 with clos := st1.clos.set a { cd with type := src.t } }
              | _ => throw .hostErr
            else pure st1
          -- target_value_obj.set(src): in-place overwrite of the cell found
          -- by get, i.e. rebinding at the nearest scope containing the name
          pure { st2 with env := envSet st2.env var src }
termination_by structural fuel

def execStmt (fuel : Nat) (st : St) (s : Stmt) : M (St × ExecStatus × Value) :=
  match fuel with
  | 0 => throw .noFuel
  | fuel + 1 =>
    match s with
    | .sFCall n a => do
        let (st1, _) ← callFunc fuel st n a
        pure (st1, .cont, VNil)
    | .sAssign t e => do
        let st1 ← assign fuel st t e
        pure (st1, .cont, VNil)
    | .sMCall o m a => do
        let (st1, _) ← callMethod fuel st o m a
        pure (st1, .cont, VNil)
    | .sReturn e => doReturn fuel st e
    | .sIf c t e => doIf fuel st c t e
    | .sWhile c b => doWhile fuel st c b
termination_by structural fuel

def doReturn (fuel : Nat) (st : St) (e : Option Expr) : M (St × ExecStatus × Value) :=
  match fuel with
  | 0 => throw .noFuel
  | fuel + 1 =>
    match e with
    | none => pure (st, .ret, VNil)
    | some ex => do
        let (st1, v) ← evalExpr fuel st ex
        let (st2, v2) ← deepcopyValue fuel st1 v
        pure (st2, .ret, v2)
termination_by structural fuel

def doIf (fuel : Nat) (st : St) (cond : Expr) (thens : List Stmt)
    (elses : Option (List Stmt)) : M (St × ExecStatus × Value) :=
  match fuel with
  | 0 => throw .noFuel
  | fuel + 1 => do
    let (st1, c0) ← evalExpr fuel st cond
    let c := if c0.t = .int then intToBool c0 else c0
    if c.t ≠ .bool then throw .typeErr
    else if truthy c then runStatements fuel st1 thens
    else
      match elses with
      | some els => runStatements fuel st1 els
      | none => pure (st1, .cont, VNil)
termination_by structural fuel

def doWhile (fuel : Nat) (st : St) (cond : Expr) (body : List Stmt) :
    M (St × ExecStatus × Value) :=
  match fuel with
  | 0 => throw .noFuel
  | fuel + 1 => do
    let (st1, c0) ← evalExpr fuel st cond
    let c := if c0.t = .int then intToBool c0 else c0
    if c.t ≠ .bool then throw .typeErr
    else if truthy c then do
      let (st2, status, rv) ← runStatements fuel st1 body
      match status with
      | .ret => pure (st2, .ret, rv)
      | .cont => doWhile fuel st2 cond body
    else pure (st1, .cont, VNil)
termination_by structural fuel

def runStatements (fuel : Nat) (st : St) (stmts : List Stmt) :
    M (St × ExecStatus × Value) :=
  match fuel with
  | 0 => throw .noFuel
  | fuel + 1 => runStmtList fuel { st with env := [] :: st.env } stmts
termination_by structural fuel

def runStmtList (fuel : Nat) (st : St) (stmts : List Stmt) :
    M (St × ExecStatus × Value) :=
  match fuel with
  | 0 => throw .noFuel
  | fuel + 1 =>
    match stmts with
    | [] => pure ({ st with env := st.env.tail }, .cont, VNil)
    | s :: rest => do
        let (st1, status, rv) ← execStmt fuel st s
        match status with
        | .ret => pure ({ st1 with env := st1.env.tail }, .ret, rv)
        | .cont => runStmtList fuel st1 rest
termination_by structural fuel
end

/-! ## Whole-program execution -/

def initSt (inputs : List String) : St :=
  { env := [[]], objs := [], clos := [], funcs := [],
    outputs := [], inputs := inputs }

/-- `Interpreter.__set_up_function_table`: every top-level function becomes a
closure over an empty environment (nothing to capture). -/
def setupFunctionTable : List FuncDef → St → St
  | [], st => st
  | d :: rest, st =>
      let r := allocClos st ⟨[], d.ast, .closure⟩
      setupFunctionTable rest
        { r.1 with funcs := tableInsert r.1.funcs d.name d.ast.args.length r.2 }

/-- `Interpreter.run` after parsing: build the table, make a fresh environment,
look up `main` with zero arguments, run its statements. -/
def runProgram (fuel : Nat) (defs : List FuncDef) (inputs : List String) : M St := do
  let st0 := setupFunctionTable defs (initSt inputs)
  let om ← getFuncByName st0 "main" (some 0)
  match om with
  | none => throw .nameErr
  | some a => do
      let cd ← getClos st0 a
      let (st1, _, _) ← runStatements fuel st0 cd.func_ast.statements
      pure st1

/-- The observable console output of a whole run. -/
def runOutputs (fuel : Nat) (defs : List FuncDef) (inputs : List String) :
    Except Err (List String) :=
  (runProgram fuel defs inputs).map St.outputs

/-! ## Generic lemmas about the error monad -/

theorem bind_eq_ok {α β : Type} {x : M α} {f : α → M β} {b : β} :
    (x >>= f) = Except.ok b ↔ ∃ a, x = Except.ok a ∧ f a = Except.ok b := by
  cases x <;> simp [Bind.bind, Except.bind]

theorem pure_eq_ok {α : Type} {a b : α} :
    (pure a : M α) = Except.ok b ↔ a = b := by
  simp [pure, Except.pure]

theorem throw_ne_ok {α : Type} {e : Err} {b : α} :
    ¬ ((throw e : M α) = Except.ok b) := by
  simp [throw, throwThe, MonadExceptOf.throw]

theorem throw_eq_error {α : Type} (e : Err) : (throw e : M α) = Except.error e := rfl

theorem error_ne_ok {α : Type} (e : Err) (b : α) :
    ¬ (Except.error e = Except.ok b) := by simp

/-! ## Concrete programs referenced by the analysis -/

/-- A top-level function `f` whose body reads a name `x` that is neither
captured, a parameter, nor a function: `func f() { return x; }`. -/
def progScopeLeak : List FuncDef :=
  [⟨"f", ⟨[], [.sReturn (some (.eVar "x"))]⟩⟩,
   ⟨"main", ⟨[], [.sAssign "x" (.eInt 42),
                  .sFCall "print" [.eFCall "f" []]]⟩⟩]

/-- `func main() { b = @; a.proto = b; }` with `a` unbound at the dotted
assignment. -/
def progUnboundProto : List FuncDef :=
  [⟨"main", ⟨[], [.sAssign "b" .eObj, .sAssign "a.proto" (.eVar "b")]⟩⟩]

/-- The state reached by `o = @; o.m = lambda(this) { return this; };` inside
`main`: `o` is the heap object at address 0, whose field `m` holds the heap
closure at address 0; that closure captured `o` (every visible binding is
captured) and its single formal parameter is named `this`. -/
def stThisShadow : St :=
  { env := [[("o", ⟨.object, .pObj 0⟩)], []],
    objs := [⟨[("m", ⟨.closure, .pClos 0⟩)], none⟩],
    clos := [⟨[("o", ⟨.object, .pObj 0⟩)],
              ⟨[⟨"this", false⟩], [.sReturn (some (.eVar "this"))]⟩, .closure⟩],
    funcs := [], outputs := [], inputs := [] }

/-- A state whose environment binds `o` to the single heap object, which has
one primitive field. -/
def stRetObj : St :=
  { env := [[("o", ⟨.object, .pObj 0⟩)]],
    objs := [⟨[("f", intV 3)], none⟩], clos := [], funcs := [],
    outputs := [], inputs := [] }

/-- A state where `x` and `y` alias the single heap closure. -/
def stAliasClos : St :=
  { env := [[("x", ⟨.closure, .pClos 0⟩), ("y", ⟨.closure, .pClos 0⟩)]],
    objs := [], clos := [⟨[], ⟨[], []⟩, .closure⟩], funcs := [],
    outputs := [], inputs := [] }

/-- The state reached by
`base = @; base.getv = lambda() { return this.v; }; d = @; d.proto = base;
d.v = 42;` reduced to its essentials: `d` is heap object 1 with own field
`v = 42` and prototype heap object 0, which carries the method `getv` (the
heap closure 0, with an empty captured environment and no parameters). -/
def stProtoRecv : St :=
  { env := [[("d", ⟨.object, .pObj 1⟩)], []],
    objs := [⟨[("getv", ⟨.closure, .pClos 0⟩)], none⟩,
             ⟨[("v", intV 42)], some ⟨.object, .pObj 0⟩⟩],
    clos := [⟨[], ⟨[], [.sReturn (some (.eVar "this.v"))]⟩, .closure⟩],
    funcs := [], outputs := [], inputs := [] }

/-- Payloads that are not heap handles. -/
def isPrimitive : Payload → Bool
  | .pObj _ => false
  | .pClos _ => false
  | _ => true

set_option maxRecDepth 8000
set_option maxHeartbeats 4000000

/-- C9: for ints `a` and `b` with `b` nonzero, `a / b` evaluates through the
operator machinery to the flooring quotient `Int.fdiv a b` (which rounds
toward negative infinity); in particular `-7 / 2` evaluates to `-4` and
`10 / 4` evaluates to `2`. -/
theorem c9_division_floors :
    (∀ (fuel : Nat) (st : St) (a b : Int), b ≠ 0 →
      evalExpr (fuel + 3) st (.eBin "/" (.eInt a) (.eInt b)) =
        Except.ok (st, intV (Int.fdiv a b))) ∧
    evalExpr 3 (initSt []) (.eBin "/" (.eInt (-7)) (.eInt 2)) =
      Except.ok (initSt [], intV (-4)) ∧
    evalExpr 3 (initSt []) (.eBin "/" (.eInt 10) (.eInt 4)) =
      Except.ok (initSt [], intV 2) := by
  refine ⟨?_, by rfl, by rfl⟩
  intro fuel st a b hb
  simp [evalExpr, applyBinOp, binOpPromotion, compatibleTypes, opLookup,
        intArith, boolOps, intOps, intV, hb, Bind.bind, Except.bind,
        pure, Except.pure]

/-- C9 witness: the general statement applied at `-7 / 2`. -/
theorem c9_division_floors_witness :
    (-7 : Int) ≠ 0 ∧
    evalExpr 3 (initSt []) (.eBin "/" (.eInt 2) (.eInt (-7))) =
      Except.ok (initSt [], intV (Int.fdiv 2 (-7))) :=
  ⟨by decide, c9_division_floors.1 0 (initSt []) 2 (-7) (by decide)⟩

/-- C1: the claim fails on the code.  Running `progScopeLeak`, the body of the
top-level function `f` (whose closure captured nothing and which has no
parameters) resolves the bare name `x` from the caller `main`'s local scope
and the program prints `42`; the claimed lexical scoping would instead have
aborted with a name error, since `x` is neither captured, a parameter, nor a
top-level function.  `EnvironmentManager.push` appends the call frame to the
same scope stack that `get` searches in full, so lookups fall through into the
caller's scopes (dynamic scoping). -/
theorem c1_caller_local_visible_in_callee :
    runOutputs 100 progScopeLeak [] = Except.ok ["42"] := by rfl

/-- C5: the claim fails on the code.  Assigning to `a.proto` while `a` is
unbound crashes with a host `AttributeError` (line 194 of `interpreterv4.py`
reads `target_value_obj.t` before the `is None` test of line 198), so the
implicit creation of a fresh Object never happens: the creation branch in
lines 198-210 is unreachable for every dotted target. -/
theorem c5_unbound_proto_crashes :
    runOutputs 100 progUnboundProto [] = Except.error Err.hostErr := by rfl

/-- C3 counterexample: `1 == true` does NOT evaluate to false — the operands
are coerced (int to bool, then bool back to int), so the comparison yields
true; likewise `5 != true` yields false rather than true. -/
theorem c3_counterexample_int_bool_eq :
    applyBinOp "==" (intV 1) (boolV true) = Except.ok (boolV true) ∧
    applyBinOp "!=" (intV 5) (boolV true) = Except.ok (boolV false) := by
  constructor <;> rfl

/-- C2 counterexample: `__do_return` applies `copy.deepcopy` to the returned
Value, so returning an Object-valued expression yields a FRESH heap object
(address 1, a new allocation beyond the original heap of length 1) rather
than sharing the payload of the returned value (address 0). -/
theorem c2_counterexample_return_copies_object :
    (evalExpr 20 stRetObj (.eVar "o")).map (fun r => r.2) =
      Except.ok ⟨.object, .pObj 0⟩ ∧
    (doReturn 20 stRetObj (some (.eVar "o"))).map (fun r => r.2.2) =
      Except.ok ⟨.object, .pObj 1⟩ ∧
    (doReturn 20 stRetObj (some (.eVar "o"))).map (fun r => r.1.objs.length) =
      Except.ok 2 ∧
    Payload.pObj 1 ≠ Payload.pObj 0 := by
  refine ⟨by rfl, by rfl, by rfl, by decide⟩

/-- C4 counterexample: with `x` and `y` both bound to the closure at heap
address 0, executing `x = 3` mutates the shared Closure entity's own type tag
to `int` (so the alias `y` no longer holds an intact closure), refuting the
claim that the underlying Closure heap object is left unmodified. -/
theorem c4_counterexample_closure_tag_mutated :
    (assign 20 stAliasClos "x" (.eInt 3)).map
        (fun st => (st.clos.map Closure.type, envGet st.env "y", envGet st.env "x")) =
      Except.ok ([Ty.int], some ⟨.closure, .pClos 0⟩, some (intV 3)) ∧
    Ty.int ≠ Ty.closure := by
  refine ⟨by rfl, by decide⟩

/-- C7 counterexample: calling `o.m(5)` in `stThisShadow` — a method whose
body is `return this` — yields the argument `5`, not the receiver object at
address 0: the formal parameter named `this` is installed into the fresh
frame after the receiver binding and shadows it, refuting the claim that the
callee always executes with `this` bound to the original receiver. -/
theorem c7_counterexample_this_shadowed :
    (callMethod 20 stThisShadow "o" "m" [.eInt 5]).map (fun r => r.2) =
      Except.ok (intV 5) ∧
    intV 5 ≠ (⟨.object, .pObj 0⟩ : Value) := by
  refine ⟨by rfl, by decide⟩

/-! ## The environment chain: nearest-scope characterization (C6)

In the Lean embedding, index 0 of the chain is the innermost scope (Python
stores the innermost scope last and iterates with `reversed`), so "nearest
enclosing scope" means "least index". -/

theorem envGet_nearest (env : Env) (s : String) :
    ∀ (i : Nat) (scope : Scope), env[i]? = some scope →
      (List.lookup s scope).isSome →
      (∀ (j : Nat) (sc : Scope), j < i → env[j]? = some sc → List.lookup s sc = none) →
      envGet env s = List.lookup s scope := by
  induction env with
  | nil => intro i scope h; simp at h
  | cons sc0 rest ih =>
      intro i scope hget hsome hmin
      cases i with
      | zero =>
          simp at hget
          subst hget
          unfold envGet
          obtain ⟨v, hv⟩ := Option.isSome_iff_exists.mp hsome
          rw [hv]
      | succ i =>
          have h0 : List.lookup s sc0 = none := hmin 0 sc0 (Nat.succ_pos i) (by simp)
          unfold envGet
          rw [h0]
          exact ih i scope (by simpa using hget) hsome
            (fun j sc hj hg => hmin (j + 1) sc (Nat.succ_lt_succ hj) (by simpa using hg))

theorem envOverwrite_nearest (env : Env) (s : String) (v : Value) :
    ∀ (i : Nat) (scope : Scope), env[i]? = some scope →
      (List.lookup s scope).isSome →
      (∀ (j : Nat) (sc : Scope), j < i → env[j]? = some sc → List.lookup s sc = none) →
      envOverwrite env s v = env.set i (dictInsert scope s v) := by
  induction env with
  | nil => intro i scope h; simp at h
  | cons sc0 rest ih =>
      intro i scope hget hsome hmin
      cases i with
      | zero =>
          simp at hget
          subst hget
          unfold envOverwrite
          rw [if_pos hsome]
          rfl
      | succ i =>
          have h0 : List.lookup s sc0 = none := hmin 0 sc0 (Nat.succ_pos i) (by simp)
          unfold envOverwrite
          rw [h0]
          simp only [Option.isSome_none, Bool.false_eq_true, if_false, List.set]
          rw [ih i scope (by simpa using hget) hsome
            (fun j sc hj hg => hmin (j + 1) sc (Nat.succ_lt_succ hj) (by simpa using hg))]

theorem envContains_true_of (env : Env) (s : String) :
    ∀ (i : Nat) (scope : Scope), env[i]? = some scope →
      (List.lookup s scope).isSome → envContains env s = true := by
  induction env with
  | nil => intro i scope h; simp at h
  | cons sc0 rest ih =>
      intro i scope hget hsome
      cases i with
      | zero =>
          simp at hget
          subst hget
          simp [envContains, hsome]
      | succ i =>
          have := ih i scope (by simpa using hget) hsome
          simp [envContains] at this ⊢
          exact Or.inr this

theorem envGet_none_of_all_none (env : Env) (s : String) :
    (∀ (i : Nat) (sc : Scope), env[i]? = some sc → List.lookup s sc = none) →
    envGet env s = none := by
  induction env with
  | nil => intro _; rfl
  | cons sc0 rest ih =>
      intro h
      unfold envGet
      rw [h 0 sc0 (by simp)]
      exact ih (fun i sc hg => h (i + 1) sc (by simpa using hg))

theorem envContains_false_of_all_none (env : Env) (s : String) :
    (∀ (i : Nat) (sc : Scope), env[i]? = some sc → List.lookup s sc = none) →
    envContains env s = false := by
  induction env with
  | nil => intro _; rfl
  | cons sc0 rest ih =>
      intro h
      have h0 : List.lookup s sc0 = none := h 0 sc0 (by simp)
      have hr : envContains rest s = false :=
        ih (fun i sc hg => h (i + 1) sc (by simpa using hg))
      unfold envContains at hr ⊢
      simp only [List.any_cons, h0, Option.isSome_none, Bool.false_or]
      exact hr

/-- C6: `set` overwrites the binding in the nearest enclosing scope containing
the name (least index: index 0 is innermost) and creates the binding in the
innermost scope when no scope contains it; `get` returns the value bound in
the nearest enclosing scope containing the name, or `none` when none does. -/
theorem c6_env_nearest_scope_semantics (env : Env) (s : String) (v : Value) :
    (∀ (i : Nat) (scope : Scope), env[i]? = some scope →
      (List.lookup s scope).isSome →
      (∀ (j : Nat) (sc : Scope), j < i → env[j]? = some sc → List.lookup s sc = none) →
      envGet env s = List.lookup s scope ∧
      envSet env s v = env.set i (dictInsert scope s v)) ∧
    ((∀ (i : Nat) (sc : Scope), env[i]? = some sc → List.lookup s sc = none) →
      envGet env s = none ∧ envSet env s v = envCreate env s v) := by
  constructor
  · intro i scope hget hsome hmin
    refine ⟨envGet_nearest env s i scope hget hsome hmin, ?_⟩
    unfold envSet
    rw [envContains_true_of env s i scope hget hsome]
    simp only [if_true]
    exact envOverwrite_nearest env s v i scope hget hsome hmin
  · intro hall
    refine ⟨envGet_none_of_all_none env s hall, ?_⟩
    unfold envSet
    rw [envContains_false_of_all_none env s hall]
    simp only [Bool.false_eq_true, if_false]
    cases env <;> rfl

/-- C6 witness: in the chain `[[("a", 1)], [("x", 2)]]` (innermost first), the
name `x` lives in the outer scope at index 1; `get` finds it there and `set`
overwrites it there, leaving the inner scope alone. -/
theorem c6_env_nearest_scope_semantics_witness :
    (List.lookup "x" [("x", intV 2)]).isSome = true ∧
    envGet [[("a", intV 1)], [("x", intV 2)]] "x" = some (intV 2) ∧
    envSet [[("a", intV 1)], [("x", intV 2)]] "x" (intV 9) =
      [[("a", intV 1)], [("x", intV 9)]] := by
  have h := (c6_env_nearest_scope_semantics
      [[("a", intV 1)], [("x", intV 2)]] "x" (intV 9)).1 1 [("x", intV 2)]
      (by rfl) (by rfl)
      (by
        intro j sc hj hg
        interval_cases j
        simp at hg
        subst hg
        rfl)
  exact ⟨by rfl, by rw [h.1]; rfl, by rw [h.2]; rfl⟩

/-! ## Bare names resolving to functions (C10) -/

/-- C10: for a bare (dot-free) name that is unbound in the environment but
present in the function table, `__eval_name` produces a Closure value for the
single arity when the name has exactly one table entry, and raises a name
error when the name is overloaded (more than one arity). -/
theorem c10_bare_name_function_reference (fuel : Nat) (st : St) (name : String)
    (cands : List (Nat × Nat))
    (hnd : splitDot name = Except.ok (name, ""))
    (henv : envGet st.env name = none)
    (htab : List.lookup name st.funcs = some cands) :
    (∀ ar a, cands = [(ar, a)] →
      evalName fuel st name = Except.ok (st, ⟨.closure, .pClos a⟩)) ∧
    (1 < cands.length → evalName fuel st name = Except.error Err.nameErr) := by
  constructor
  · intro ar a hc
    subst hc
    unfold evalName getFuncByName
    rw [hnd]
    simp [Bind.bind, Except.bind, henv, htab, pure, Except.pure]
  · intro hlen
    unfold evalName getFuncByName
    rw [hnd]
    simp [Bind.bind, Except.bind, henv, htab, pure, Except.pure, hlen,
          throw, throwThe, MonadExceptOf.throw]

/-- C10 witness: with a table holding `h` at exactly one arity and `g` at two,
the bare name `h` evaluates to the closure at address 0 (and, for contrast
outside the witness application, `g` would be a name error). -/
theorem c10_bare_name_function_reference_witness :
    (splitDot "h" = Except.ok ("h", "") ∧
      envGet [[]] "h" = none ∧
      List.lookup "h" [("h", [(1, 0)]), ("g", [(0, 1), (1, 2)])] =
        some [(1, 0)]) ∧
    evalName 5
      { env := [[]], objs := [], clos := [], outputs := [], inputs := [],
        funcs := [("h", [(1, 0)]), ("g", [(0, 1), (1, 2)])] } "h" =
      Except.ok
        ({ env := [[]], objs := [], clos := [], outputs := [], inputs := [],
           funcs := [("h", [(1, 0)]), ("g", [(0, 1), (1, 2)])] },
         ⟨.closure, .pClos 0⟩) :=
  ⟨⟨by rfl, by rfl, by rfl⟩,
   (c10_bare_name_function_reference 5 _ "h" [(1, 0)] (by rfl) (by rfl) (by rfl)).1
     1 0 rfl⟩

/-! ## Mismatched-type equality (C3, amended) -/

/-- C3 (amended): mismatched non-Object operands under `==`/`!=` never raise;
a pair that is not an Int/Bool combination compares to false (respectively
true), while an Int/Bool pair is coerced through `__bin_op_promotion` (int to
bool to int, collapsing any nonzero int to 1) and compared numerically, so
`i == b` yields `(i ≠ 0) == b`. -/
theorem c3_amended_mismatched_equality :
    (∀ v1 v2 : Value, wfV v1 → wfV v2 → v1.t ≠ v2.t →
      v1.t ≠ .object → v2.t ≠ .object →
      ¬((v1.t = .int ∨ v1.t = .bool) ∧ (v2.t = .int ∨ v2.t = .bool)) →
      applyBinOp "==" v1 v2 = Except.ok (boolV false) ∧
      applyBinOp "!=" v1 v2 = Except.ok (boolV true)) ∧
    (∀ (i : Int) (b : Bool),
      applyBinOp "==" (intV i) (boolV b) =
        Except.ok (boolV (decide (i ≠ 0) == b)) ∧
      applyBinOp "!=" (intV i) (boolV b) =
        Except.ok (boolV (!(decide (i ≠ 0) == b))) ∧
      applyBinOp "==" (boolV b) (intV i) =
        Except.ok (boolV (b == decide (i ≠ 0))) ∧
      applyBinOp "!=" (boolV b) (intV i) =
        Except.ok (boolV (!(b == decide (i ≠ 0))))) := by
  constructor
  · rintro ⟨t1, p1⟩ ⟨t2, p2⟩ h1 h2 hne ho1 ho2 hib
    simp only [wfV] at h1 h2
    subst h1; subst h2
    cases p1 <;> cases p2 <;>
      simp_all [kindOf, applyBinOp, binOpPromotion, intToBool, boolToInt,
                compatibleTypes, opLookup, pyEq, boolOps, intOps, boolV,
                pure, Except.pure]
  · intro i b
    by_cases hi : i = 0 <;> cases b <;>
      simp_all [applyBinOp, binOpPromotion, intToBool, boolToInt,
                compatibleTypes, opLookup, pyEq, boolOps, intOps, boolV, intV,
                pure, Except.pure]

/-- C3 amended witness: the general statement applied to the string `"a"` and
the integer `0` (whose types differ and are not an Int/Bool pair), and to the
coerced pair `5` and `true`. -/
theorem c3_amended_mismatched_equality_witness :
    (wfV (strV "a") ∧ wfV (intV 0) ∧ (strV "a").t ≠ (intV 0).t) ∧
    applyBinOp "==" (strV "a") (intV 0) = Except.ok (boolV false) ∧
    applyBinOp "==" (intV 5) (boolV true) =
      Except.ok (boolV (decide ((5 : Int) ≠ 0) == true)) :=
  ⟨⟨by decide, by decide, by decide⟩,
   (c3_amended_mismatched_equality.1 (strV "a") (intV 0) (by decide) (by decide)
      (by decide) (by decide) (by decide) (by decide)).1,
   (c3_amended_mismatched_equality.2 5 true).1⟩

/-! ## Return deep-copies heap payloads (C2, amended) -/

theorem deepcopyValue_prim (fuel : Nat) (st : St) (v : Value)
    (h : isPrimitive v.v = true) :
    deepcopyValue (fuel + 1) st v = Except.ok (st, v) := by
  obtain ⟨t, p⟩ := v
  cases p <;> simp_all [deepcopyValue, isPrimitive, pure, Except.pure]

theorem deepcopyDict_prim (d : Dict) :
    ∀ (fuel : Nat) (st : St), d.length < fuel →
      (∀ kv ∈ d, isPrimitive kv.2.v = true) →
      deepcopyDict fuel st d = Except.ok (st, d) := by
  induction d with
  | nil =>
      intro fuel st hf _
      cases fuel with
      | zero => omega
      | succ f => rfl
  | cons kv rest ih =>
      intro fuel st hf hp
      cases fuel with
      | zero => omega
      | succ f =>
          obtain ⟨k, v⟩ := kv
          obtain ⟨f1, rfl⟩ : ∃ f1, f = f1 + 1 :=
            ⟨f - 1, by simp at hf; omega⟩
          have h1 : deepcopyValue (f1 + 1) st v = Except.ok (st, v) :=
            deepcopyValue_prim f1 st v (hp (k, v) (by simp))
          have h2 : deepcopyDict (f1 + 1) st rest = Except.ok (st, rest) :=
            ih (f1 + 1) st (by simp at hf; omega)
              (fun kv2 hkv2 => hp kv2 (by simp [hkv2]))
          rw [show deepcopyDict (f1 + 1 + 1) st ((k, v) :: rest) =
              (deepcopyValue (f1 + 1) st v >>= fun r1 =>
                deepcopyDict (f1 + 1) r1.1 rest >>= fun r2 =>
                  pure (r2.1, (k, r1.2) :: r2.2)) from rfl]
          rw [h1]
          simp only [Bind.bind, Except.bind]
          rw [h2]
          rfl

/-- `copy.deepcopy` only ever appends to the two heaps: every address that
exists on entry still denotes its old entity, and every allocation is fresh. -/
theorem deepcopy_heap_mono : ∀ fuel : Nat,
    (∀ (st : St) (v : Value) (r : St × Value),
      deepcopyValue fuel st v = Except.ok r →
        st.objs.length ≤ r.1.objs.length ∧ st.clos.length ≤ r.1.clos.length) ∧
    (∀ (st : St) (d : Dict) (r : St × Dict),
      deepcopyDict fuel st d = Except.ok r →
        st.objs.length ≤ r.1.objs.length ∧ st.clos.length ≤ r.1.clos.length) := by
  intro fuel
  induction fuel with
  | zero =>
      constructor <;> intro st x r h <;>
        simp [deepcopyValue, deepcopyDict, throw_eq_error] at h
  | succ f ih =>
      obtain ⟨ihv, ihd⟩ := ih
      constructor
      · intro st v r h
        simp only [deepcopyValue] at h
        split at h
        · obtain ⟨od, hod, h⟩ := bind_eq_ok.mp h
          obtain ⟨r1, h1, h⟩ := bind_eq_ok.mp h
          have m1 := ihd st od.values r1 h1
          split at h
          · rw [pure_bind] at h
            cases pure_eq_ok.mp h
            simp only [allocObj, List.length_append, List.length_cons,
              List.length_nil]
            omega
          · obtain ⟨rp, hrp, h⟩ := bind_eq_ok.mp h
            rw [pure_bind] at h
            cases pure_eq_ok.mp h
            have m2 := ihv r1.1 _ rp hrp
            simp only [allocObj, List.length_append, List.length_cons,
              List.length_nil]
            omega
        · obtain ⟨cd, hcd, h⟩ := bind_eq_ok.mp h
          obtain ⟨r1, h1, h⟩ := bind_eq_ok.mp h
          cases pure_eq_ok.mp h
          have m1 := ihd st cd.captured_env r1 h1
          simp only [allocClos, List.length_append, List.length_cons,
            List.length_nil]
          omega
        · cases pure_eq_ok.mp h; simp
      · intro st d r h
        simp only [deepcopyDict] at h
        split at h
        · cases pure_eq_ok.mp h; simp
        · obtain ⟨r1, h1, h⟩ := bind_eq_ok.mp h
          obtain ⟨r2, h2, h⟩ := bind_eq_ok.mp h
          cases pure_eq_ok.mp h
          have m1 := ihv st _ r1 h1
          have m2 := ihd r1.1 _ r2 h2
          dsimp only
          omega

/-- C2 (amended): `__do_return` deep-copies the produced Value.  For EVERY
successful deep copy: an Object payload at address `a` produces an Object
payload at a fresh address (at least the old heap length, so distinct from
`a` and from every pre-existing object); a Closure payload likewise produces
a fresh Closure; a primitive payload is duplicated (trivially equal); for an
Object with primitive fields and no prototype the copy's field dict equals
the original's; and a return statement produces exactly the deep copy of its
evaluated expression.  Reference identity is therefore never preserved across
a return of an Object or Closure. -/
theorem c2_amended_return_deep_copies :
    (∀ (fuel : Nat) (st : St) (v : Value) (r : St × Value) (a : Nat),
      deepcopyValue fuel st v = Except.ok r → v.v = .pObj a →
      ∃ a2, r.2 = ⟨v.t, .pObj a2⟩ ∧ a < st.objs.length ∧
        st.objs.length ≤ a2 ∧ a2 ≠ a) ∧
    (∀ (fuel : Nat) (st : St) (v : Value) (r : St × Value) (a : Nat),
      deepcopyValue fuel st v = Except.ok r → v.v = .pClos a →
      ∃ a2, r.2 = ⟨v.t, .pClos a2⟩ ∧ a < st.clos.length ∧
        st.clos.length ≤ a2 ∧ a2 ≠ a) ∧
    (∀ (fuel : Nat) (st : St) (v : Value), isPrimitive v.v = true →
      deepcopyValue (fuel + 1) st v = Except.ok (st, v)) ∧
    (∀ (fuel : Nat) (st : St) (a : Nat) (od : Object),
      st.objs[a]? = some od → od.proto = none →
      (∀ kv ∈ od.values, isPrimitive kv.2.v = true) →
      od.values.length + 1 < fuel →
      deepcopyValue fuel st ⟨.object, .pObj a⟩ =
        Except.ok ({ st with objs := st.objs ++ [od] },
                   ⟨.object, .pObj st.objs.length⟩)) ∧
    (∀ (fuel : Nat) (st0 st : St) (ex : Expr) (v : Value) (r : St × Value),
      evalExpr fuel st0 ex = Except.ok (st, v) →
      deepcopyValue fuel st v = Except.ok r →
      doReturn (fuel + 1) st0 (some ex) =
        Except.ok (r.1, .ret, r.2)) := by
  refine ⟨?_, ?_, ?_, ?_, ?_⟩
  · intro fuel st v r a h hva
    cases fuel with
    | zero => simp [deepcopyValue, throw_eq_error] at h
    | succ f =>
        obtain ⟨t, pv⟩ := v
        simp only at hva
        subst hva
        simp only [deepcopyValue] at h
        obtain ⟨od, hod, h⟩ := bind_eq_ok.mp h
        have ha : a < st.objs.length := by
          unfold getObj at hod
          split at hod
          · next ho =>
              by_contra hcon
              push_neg at hcon
              rw [List.getElem?_eq_none hcon] at ho
              simp at ho
          · simp [throw_eq_error] at hod
        obtain ⟨r1, h1, h⟩ := bind_eq_ok.mp h
        have m1 := (deepcopy_heap_mono f).2 st od.values r1 h1
        split at h
        · rw [pure_bind] at h
          cases pure_eq_ok.mp h
          exact ⟨r1.1.objs.length, rfl, ha, by omega, by omega⟩
        · obtain ⟨rp, hrp, h⟩ := bind_eq_ok.mp h
          rw [pure_bind] at h
          cases pure_eq_ok.mp h
          have m2 := (deepcopy_heap_mono f).1 r1.1 _ rp hrp
          exact ⟨rp.1.objs.length, rfl, ha, by omega, by omega⟩
  · intro fuel st v r a h hva
    cases fuel with
    | zero => simp [deepcopyValue, throw_eq_error] at h
    | succ f =>
        obtain ⟨t, pv⟩ := v
        simp only at hva
        subst hva
        simp only [deepcopyValue] at h
        obtain ⟨cd, hcd, h⟩ := bind_eq_ok.mp h
        have ha : a < st.clos.length := by
          unfold getClos at hcd
          split at hcd
          · next ho =>
              by_contra hcon
              push_neg at hcon
              rw [List.getElem?_eq_none hcon] at ho
              simp at ho
          · simp [throw_eq_error] at hcd
        obtain ⟨r1, h1, h⟩ := bind_eq_ok.mp h
        cases pure_eq_ok.mp h
        have m1 := (deepcopy_heap_mono f).2 st cd.captured_env r1 h1
        exact ⟨r1.1.clos.length, rfl, ha, by omega, by omega⟩
  · intro fuel st v hp
    exact deepcopyValue_prim fuel st v hp
  · intro fuel st a od ha hp hprim hf
    obtain ⟨f, rfl⟩ : ∃ f, fuel = f + 1 := ⟨fuel - 1, by omega⟩
    have hod : od = ⟨od.values, none⟩ := by cases od; simp_all
    have hd : deepcopyDict f st od.values = Except.ok (st, od.values) :=
      deepcopyDict_prim od.values f st (by omega) hprim
    simp [deepcopyValue, getObj, ha, hd, hp, allocObj, Bind.bind, Except.bind,
          pure, Except.pure]
    rw [hod]
  · intro fuel st0 st ex v r hev hdc
    simp [doReturn, Bind.bind, Except.bind, hev, hdc, pure, Except.pure]

/-- C2 amended witness: in `stRetObj` (one heap object, at address 0), the
deep copy of the Object value at address 0 is the Object value at the fresh
address 1, beyond the old heap of length 1 and distinct from 0. -/
theorem c2_amended_return_deep_copies_witness :
    (deepcopyValue 3 stRetObj ⟨.object, .pObj 0⟩ =
        Except.ok
          ({ stRetObj with objs := stRetObj.objs ++ [⟨[("f", intV 3)], none⟩] },
           ⟨.object, .pObj 1⟩) ∧
      (⟨Ty.object, Payload.pObj 0⟩ : Value).v = Payload.pObj 0) ∧
    (∃ a2, (⟨Ty.object, Payload.pObj 1⟩ : Value) = ⟨Ty.object, Payload.pObj a2⟩ ∧
      0 < stRetObj.objs.length ∧ stRetObj.objs.length ≤ a2 ∧ a2 ≠ 0) :=
  ⟨⟨by rfl, by rfl⟩,
   c2_amended_return_deep_copies.1 3 stRetObj ⟨.object, .pObj 0⟩
     ({ stRetObj with objs := stRetObj.objs ++ [⟨[("f", intV 3)], none⟩] },
      ⟨.object, .pObj 1⟩) 0 (by rfl) (by rfl)⟩

/-! ## Overwriting a closure-typed variable (C4, amended) -/

/-- C4 (amended): assigning a non-Closure value to a plain variable currently
bound to a Closure first mutates the shared Closure heap entity's `type` tag
to the new value's type — its captured environment and AST reference are kept
— and then replaces the variable's slot in full via `envSet`; an alias of the
Closure therefore sees the mutated (no longer `closure`-tagged, hence no
longer callable) heap entity. -/
theorem c4_amended_closure_overwrite (fuel : Nat) (st0 st : St) (x : String)
    (e : Expr) (a : Nat) (cd : Closure) (src : Value)
    (hnd : splitDot x = Except.ok (x, ""))
    (heval : evalExpr fuel st0 e = Except.ok (st, src))
    (hv : envGet st.env x = some ⟨.closure, .pClos a⟩)
    (hc : st.clos[a]? = some cd)
    (hsrc : src.t ≠ .closure) :
    assign (fuel + 1) st0 x e =
      Except.ok { st with
        clos := st.clos.set a ⟨cd.captured_env, cd.func_ast, src.t⟩,
        env := envSet st.env x src } := by
  simp [assign, Bind.bind, Except.bind, heval, hnd, hv, hsrc, getClos, hc,
        pure, Except.pure]

/-- C4 amended witness: the general statement applied to `stAliasClos` and the
assignment `x = 3`. -/
theorem c4_amended_closure_overwrite_witness :
    (splitDot "x" = Except.ok ("x", "") ∧
      evalExpr 1 stAliasClos (.eInt 3) = Except.ok (stAliasClos, intV 3) ∧
      envGet stAliasClos.env "x" = some ⟨.closure, .pClos 0⟩ ∧
      stAliasClos.clos[0]? = some ⟨[], ⟨[], []⟩, .closure⟩) ∧
    assign 2 stAliasClos "x" (.eInt 3) =
      Except.ok { stAliasClos with
        clos := stAliasClos.clos.set 0 ⟨[], ⟨[], []⟩, Ty.int⟩,
        env := envSet stAliasClos.env "x" (intV 3) } :=
  ⟨⟨by rfl, by rfl, by rfl, by rfl⟩,
   c4_amended_closure_overwrite 1 stAliasClos stAliasClos "x" (.eInt 3) 0
     ⟨[], ⟨[], []⟩, .closure⟩ (intV 3) (by rfl) (by rfl) (by rfl) (by rfl)
     (by decide)⟩

/-! ## Method calls: resolution and the `this` binding (C7, amended) -/

theorem lookup_cons (k k1 : String) (v1 : Value) (rest : Dict) :
    List.lookup k ((k1, v1) :: rest) =
      if k = k1 then some v1 else List.lookup k rest := by
  by_cases h : k = k1
  · subst h; simp [List.lookup]
  · simp [List.lookup, h, beq_eq_false_iff_ne.mpr h]

theorem lookup_dictInsert (d : Dict) (k k2 : String) (v : Value) :
    List.lookup k (dictInsert d k2 v) =
      if k = k2 then some v else List.lookup k d := by
  induction d with
  | nil =>
      rw [show dictInsert [] k2 v = [(k2, v)] from rfl, lookup_cons]
  | cons p rest ih =>
      obtain ⟨k1, v1⟩ := p
      by_cases h : k1 = k2
      · subst h
        rw [show dictInsert ((k1, v1) :: rest) k1 v = (k1, v) :: rest from by
              simp [dictInsert],
            lookup_cons, lookup_cons]
        by_cases hk : k = k1 <;> simp [hk]
      · rw [show dictInsert ((k1, v1) :: rest) k2 v =
              (k1, v1) :: dictInsert rest k2 v from by simp [dictInsert, h],
            lookup_cons, lookup_cons, ih]
        by_cases hk1 : k = k1 <;> by_cases hk2 : k = k2 <;> simp_all

theorem lookup_prepareEnvClosed (cap : Dict) (k : String)
    (h : ∀ p ∈ cap, p.1 ≠ k) :
    ∀ init : Dict,
      List.lookup k (prepareEnvClosed cap init) = List.lookup k init := by
  induction cap with
  | nil => intro init; rfl
  | cons p rest ih =>
      intro init
      have hstep : prepareEnvClosed (p :: rest) init =
          prepareEnvClosed rest (dictInsert init p.1 p.2) := rfl
      rw [hstep, ih (fun q hq => h q (by simp [hq])), lookup_dictInsert,
          if_neg (Ne.symm (h p (by simp)))]

theorem bindParams_lookup (k : String) :
    ∀ (fuel : Nat) (st : St) (formals : List FormalArg) (actuals : List Expr)
      (acc : Dict) (res : St × Dict),
      bindParams fuel st formals actuals acc = Except.ok res →
      (∀ f ∈ formals, f.name ≠ k) →
      List.lookup k res.2 = List.lookup k acc := by
  intro fuel
  induction fuel with
  | zero =>
      intro st formals actuals acc res h _
      simp [bindParams, throw, throwThe, MonadExceptOf.throw] at h
  | succ f ih =>
      intro st formals actuals acc res h hk
      match formals, actuals with
      | [], _ =>
          simp [bindParams, pure, Except.pure] at h
          rw [← h]
      | fa :: fr, [] =>
          simp [bindParams, pure, Except.pure] at h
          rw [← h]
      | fa :: fr, a :: ar =>
          simp only [bindParams] at h
          obtain ⟨r1, h1, h⟩ := bind_eq_ok.mp h
          have key : ∃ stx vx,
              bindParams f stx fr ar (dictInsert acc fa.name vx) =
                Except.ok res := by
            by_cases hr : fa.isRef = true
            · rw [if_pos hr, pure_bind] at h
              exact ⟨r1.1, r1.2, h⟩
            · rw [if_neg hr] at h
              obtain ⟨r2, h2, h⟩ := bind_eq_ok.mp h
              exact ⟨r2.1, r2.2, h⟩
          obtain ⟨stx, vx, hb⟩ := key
          rw [ih stx fr ar (dictInsert acc fa.name vx) res hb
              (fun q hq => hk q (by simp [hq])),
              lookup_dictInsert, if_neg (Ne.symm (hk fa (by simp)))]

theorem prepareParams_lookup (k : String) (fuel : Nat) (st : St)
    (formals : List FormalArg) (actuals : List Expr) (acc : Dict)
    (res : St × Dict)
    (h : prepareParams fuel st formals actuals acc = Except.ok res)
    (hk : ∀ f ∈ formals, f.name ≠ k) :
    List.lookup k res.2 = List.lookup k acc := by
  cases fuel with
  | zero => simp [prepareParams, throw, throwThe, MonadExceptOf.throw] at h
  | succ f =>
      rw [show prepareParams (f + 1) st formals actuals acc =
          (if formals.length ≠ actuals.length then throw Err.nameErr
           else bindParams f st formals actuals acc) from rfl] at h
      by_cases hlen : formals.length = actuals.length
      · rw [if_neg (by simpa using hlen)] at h
        exact bindParams_lookup k f st formals actuals acc res h hk
      · rw [if_pos (by simpa using hlen)] at h
        simp [throw, throwThe, MonadExceptOf.throw] at h

/-- C7 (amended): for a method call `objref.mname(args)` whose receiver
resolves to an Object value: (i) the name is resolved via the receiver's own
field table first (most-derived wins) and then outward along `proto` links;
(ii) an exhausted chain is a name error and (iii) a hit that is not
Closure-tagged is a type error; (iv) the fresh frame is seeded with `this`
bound to the ORIGINAL receiver — surviving the later installation of captured
variables and parameters whenever none of them is itself named `this` — and
the body runs with that frame pushed, its result returned after the frame is
popped. -/
theorem c7_amended_method_call (fuel : Nat) (st : St) (objref mname : String)
    (args : List Expr) (recv : Value)
    (hobj : envGet st.env objref = some recv)
    (ht : recv.t = .object) :
    (∀ (a : Nat) (od : Object) (v : Value), recv.v = .pObj a →
      st.objs[a]? = some od → loopFind od.values mname = some v →
      findInChain (fuel + 1) st (some recv) mname = Except.ok (some v)) ∧
    (findInChain fuel st (some recv) mname = Except.ok none →
      callMethod (fuel + 1) st objref mname args = Except.error Err.nameErr) ∧
    (∀ m : Value, findInChain fuel st (some recv) mname = Except.ok (some m) →
      m.t ≠ .closure →
      callMethod (fuel + 1) st objref mname args = Except.error Err.typeErr) ∧
    (∀ (ca : Nat) (cd : Closure) (st1 : St) (frame : Dict),
      findInChain fuel st (some recv) mname =
        Except.ok (some ⟨.closure, .pClos ca⟩) →
      st.clos[ca]? = some cd →
      (∀ p ∈ cd.captured_env, p.1 ≠ "this") →
      (∀ f ∈ cd.func_ast.args, f.name ≠ "this") →
      prepareParams fuel st cd.func_ast.args args
          (prepareEnvClosed cd.captured_env (dictInsert [] "this" recv)) =
        Except.ok (st1, frame) →
      List.lookup "this" frame = some recv ∧
      (∀ r : St × ExecStatus × Value,
        runStatements fuel { st1 with env := frame :: st1.env }
            cd.func_ast.statements = Except.ok r →
        callMethod (fuel + 1) st objref mname args =
          Except.ok ({ r.1 with env := r.1.env.tail }, r.2.2))) := by
  refine ⟨?_, ?_, ?_, ?_⟩
  · intro a od v hpv hga hlf
    obtain ⟨tr, pr⟩ := recv
    simp at hpv ht
    subst hpv
    simp [findInChain, getObj, hga, hlf, Bind.bind, Except.bind, pure, Except.pure]
  · intro hfc
    simp [callMethod, hobj, ht, hfc, Bind.bind, Except.bind, pure, Except.pure,
          throw, throwThe, MonadExceptOf.throw]
  · intro m hfc hm
    simp [callMethod, hobj, ht, hfc, hm, Bind.bind, Except.bind, pure,
          Except.pure, throw, throwThe, MonadExceptOf.throw]
  · intro ca cd st1 frame hfc hgc hcap hfa hpp
    constructor
    · rw [prepareParams_lookup "this" fuel st cd.func_ast.args args _ (st1, frame)
          hpp hfa,
        lookup_prepareEnvClosed cd.captured_env "this" hcap, lookup_dictInsert]
      simp
    · intro r hrun
      simp [callMethod, hobj, ht, hfc, getClos, hgc, hpp, hrun, Bind.bind,
            Except.bind, pure, Except.pure]

/-- C7 amended witness: receiver `d` (heap object 1) delegates `getv` to its
prototype (heap object 0); the frame binds `this` to `d` itself, and running
the body `return this.v` produces `d`'s own field value `42`, which the
method call returns. -/
theorem c7_amended_method_call_witness :
    (envGet stProtoRecv.env "d" = some ⟨.object, .pObj 1⟩ ∧
      findInChain 10 stProtoRecv (some ⟨.object, .pObj 1⟩) "getv" =
        Except.ok (some ⟨.closure, .pClos 0⟩) ∧
      prepareParams 10 stProtoRecv [] []
          (prepareEnvClosed [] (dictInsert [] "this" ⟨.object, .pObj 1⟩)) =
        Except.ok (stProtoRecv, [("this", ⟨.object, .pObj 1⟩)])) ∧
    List.lookup "this" [("this", (⟨.object, .pObj 1⟩ : Value))] =
      some ⟨.object, .pObj 1⟩ ∧
    callMethod 11 stProtoRecv "d" "getv" [] =
      Except.ok (stProtoRecv, intV 42) := by
  have h := (c7_amended_method_call 10 stProtoRecv "d" "getv" []
      ⟨.object, .pObj 1⟩ (by rfl) (by rfl)).2.2.2 0
      ⟨[], ⟨[], [.sReturn (some (.eVar "this.v"))]⟩, .closure⟩
      stProtoRecv [("this", ⟨.object, .pObj 1⟩)]
      (by rfl) (by rfl) (by simp) (by simp) (by rfl)
  refine ⟨⟨by rfl, by rfl, by rfl⟩, h.1, ?_⟩
  have h2 := h.2
      ({ stProtoRecv with
         env := [("this", ⟨.object, .pObj 1⟩)] :: stProtoRecv.env },
       .ret, intV 42) (by rfl)
  exact h2

/-! ## Scope-stack balance (C8) -/

theorem envOverwrite_length (env : Env) (s : String) (v : Value) :
    (envOverwrite env s v).length = env.length := by
  induction env with
  | nil => rfl
  | cons sc rest ih =>
      unfold envOverwrite
      split <;> simp [ih]

theorem envSet_length (env : Env) (s : String) (v : Value) :
    (envSet env s v).length = env.length := by
  unfold envSet
  split
  · exact envOverwrite_length env s v
  · cases env <;> simp

theorem length_tail {α : Type} (l : List α) : l.tail.length = l.length - 1 := by
  cases l <;> simp

/-- `__eval_name` only reads: a successful evaluation returns the input state
unchanged. -/
theorem evalName_state (fuel : Nat) (st : St) (name : String) (r : St × Value)
    (h : evalName fuel st name = Except.ok r) : r.1 = st := by
  unfold evalName at h
  obtain ⟨⟨var, field⟩, hsd, h⟩ := bind_eq_ok.mp h
  clear hsd
  repeat'
    first
      | (obtain ⟨_, _, h⟩ := bind_eq_ok.mp h)
      | (split at h)
  all_goals
    first
      | (cases pure_eq_ok.mp h; rfl)
      | (simp [throw, throwThe, MonadExceptOf.throw] at h)

/-- `copy.deepcopy` never touches the environment chain. -/
theorem deepcopy_env_preserved : ∀ fuel : Nat,
    (∀ (st : St) (v : Value) (r : St × Value),
      deepcopyValue fuel st v = Except.ok r → r.1.env = st.env) ∧
    (∀ (st : St) (d : Dict) (r : St × Dict),
      deepcopyDict fuel st d = Except.ok r → r.1.env = st.env) := by
  intro fuel
  induction fuel with
  | zero =>
      constructor <;> intro st x r h <;>
        simp [deepcopyValue, deepcopyDict, throw, throwThe,
              MonadExceptOf.throw] at h
  | succ f ih =>
      obtain ⟨ihv, ihd⟩ := ih
      constructor
      · intro st v r h
        simp only [deepcopyValue] at h
        split at h
        · -- pObj branch
          obtain ⟨od, hod, h⟩ := bind_eq_ok.mp h
          obtain ⟨r1, h1, h⟩ := bind_eq_ok.mp h
          have e1 : r1.1.env = st.env := ihd st od.values r1 h1
          split at h
          · rw [pure_bind] at h
            cases pure_eq_ok.mp h
            simp [allocObj, e1]
          · obtain ⟨rp, hrp, h⟩ := bind_eq_ok.mp h
            rw [pure_bind] at h
            cases pure_eq_ok.mp h
            have e2 : rp.1.env = r1.1.env := ihv r1.1 _ rp hrp
            simp [allocObj, e1, e2]
        · -- pClos branch
          obtain ⟨cd, hcd, h⟩ := bind_eq_ok.mp h
          obtain ⟨r1, h1, h⟩ := bind_eq_ok.mp h
          cases pure_eq_ok.mp h
          have e1 : r1.1.env = st.env := ihd st cd.captured_env r1 h1
          simp [allocClos, e1]
        · -- primitive payloads
          cases pure_eq_ok.mp h; rfl
      · intro st d r h
        simp only [deepcopyDict] at h
        split at h
        · cases pure_eq_ok.mp h; rfl
        · obtain ⟨r1, h1, h⟩ := bind_eq_ok.mp h
          obtain ⟨r2, h2, h⟩ := bind_eq_ok.mp h
          cases pure_eq_ok.mp h
          have e1 : r1.1.env = st.env := ihv st _ r1 h1
          have e2 : r2.1.env = r1.1.env := ihd r1.1 _ r2 h2
          simp [e1, e2]

/-- Every interpreter entry point restores the scope-stack depth on success:
expression evaluation, calls, assignment and statement execution return an
environment chain exactly as deep as the one they received, while
`runStmtList` (the post-push part of `__run_statements`) pops exactly the one
scope its caller pushed, on both exit paths (fall-through and return). -/
theorem envLen_master : ∀ fuel : Nat,
    (∀ (st : St) (e : Expr) (r : St × Value),
      evalExpr fuel st e = Except.ok r → r.1.env.length = st.env.length) ∧
    (∀ (st : St) (n : String) (args : List Expr) (r : St × Value),
      callFunc fuel st n args = Except.ok r → r.1.env.length = st.env.length) ∧
    (∀ (st : St) (args : List Expr) (acc : String) (r : St × Value),
      callPrint fuel st args acc = Except.ok r → r.1.env.length = st.env.length) ∧
    (∀ (st : St) (n : String) (args : List Expr) (r : St × Value),
      callInput fuel st n args = Except.ok r → r.1.env.length = st.env.length) ∧
    (∀ (st : St) (o m : String) (args : List Expr) (r : St × Value),
      callMethod fuel st o m args = Except.ok r → r.1.env.length = st.env.length) ∧
    (∀ (st : St) (fs : List FormalArg) (as2 : List Expr) (acc : Dict)
      (r : St × Dict),
      prepareParams fuel st fs as2 acc = Except.ok r →
        r.1.env.length = st.env.length) ∧
    (∀ (st : St) (fs : List FormalArg) (as2 : List Expr) (acc : Dict)
      (r : St × Dict),
      bindParams fuel st fs as2 acc = Except.ok r →
        r.1.env.length = st.env.length) ∧
    (∀ (st : St) (t : String) (e : Expr) (r : St),
      assign fuel st t e = Except.ok r → r.env.length = st.env.length) ∧
    (∀ (st : St) (s : Stmt) (r : St × ExecStatus × Value),
      execStmt fuel st s = Except.ok r → r.1.env.length = st.env.length) ∧
    (∀ (st : St) (e : Option Expr) (r : St × ExecStatus × Value),
      doReturn fuel st e = Except.ok r → r.1.env.length = st.env.length) ∧
    (∀ (st : St) (c : Expr) (t : List Stmt) (e : Option (List Stmt))
      (r : St × ExecStatus × Value),
      doIf fuel st c t e = Except.ok r → r.1.env.length = st.env.length) ∧
    (∀ (st : St) (c : Expr) (b : List Stmt) (r : St × ExecStatus × Value),
      doWhile fuel st c b = Except.ok r → r.1.env.length = st.env.length) ∧
    (∀ (st : St) (stmts : List Stmt) (r : St × ExecStatus × Value),
      runStatements fuel st stmts = Except.ok r →
        r.1.env.length = st.env.length) ∧
    (∀ (st : St) (stmts : List Stmt) (r : St × ExecStatus × Value),
      runStmtList fuel st stmts = Except.ok r →
        r.1.env.length = st.env.length - 1) := by
  intro fuel
  induction fuel with
  | zero =>
      refine ⟨?_, ?_, ?_, ?_, ?_, ?_, ?_, ?_, ?_, ?_, ?_, ?_, ?_, ?_⟩
      · intro st e r h; simp [evalExpr, throw_eq_error] at h
      · intro st n args r h; simp [callFunc, throw_eq_error] at h
      · intro st args acc r h; simp [callPrint, throw_eq_error] at h
      · intro st n args r h; simp [callInput, throw_eq_error] at h
      · intro st o m args r h; simp [callMethod, throw_eq_error] at h
      · intro st fs as2 acc r h; simp [prepareParams, throw_eq_error] at h
      · intro st fs as2 acc r h; simp [bindParams, throw_eq_error] at h
      · intro st t e r h; simp [assign, throw_eq_error] at h
      · intro st s r h; simp [execStmt, throw_eq_error] at h
      · intro st e r h; simp [doReturn, throw_eq_error] at h
      · intro st c t e r h; simp [doIf, throw_eq_error] at h
      · intro st c b r h; simp [doWhile, throw_eq_error] at h
      · intro st stmts r h; simp [runStatements, throw_eq_error] at h
      · intro st stmts r h; simp [runStmtList, throw_eq_error] at h
  | succ f ih =>
      obtain ⟨ihEval, ihCallF, ihPrint, ihInput, ihCallM, ihPrep, ihBind,
        ihAssign, ihExec, ihRet, ihIf, ihWhile, ihRunS, ihRunL⟩ := ih
      refine ⟨?_, ?_, ?_, ?_, ?_, ?_, ?_, ?_, ?_, ?_, ?_, ?_, ?_, ?_⟩
      · -- evalExpr
        intro st e r h
        cases e with
        | eNil => simp only [evalExpr] at h; cases pure_eq_ok.mp h; rfl
        | eInt n => simp only [evalExpr] at h; cases pure_eq_ok.mp h; rfl
        | eStr s => simp only [evalExpr] at h; cases pure_eq_ok.mp h; rfl
        | eBool b => simp only [evalExpr] at h; cases pure_eq_ok.mp h; rfl
        | eVar name =>
            simp only [evalExpr] at h
            rw [evalName_state f st name r h]
        | eFCall name args =>
            simp only [evalExpr] at h
            exact ihCallF st name args r h
        | eBin op l r2 =>
            simp only [evalExpr] at h
            obtain ⟨r1, h1, h⟩ := bind_eq_ok.mp h
            obtain ⟨rr, h2, h⟩ := bind_eq_ok.mp h
            obtain ⟨v, hv, h⟩ := bind_eq_ok.mp h
            cases pure_eq_ok.mp h
            have e1 := ihEval st l r1 h1
            have e2 := ihEval r1.1 r2 rr h2
            simpa using e2.trans e1
        | eNeg e1 =>
            simp only [evalExpr] at h
            obtain ⟨r1, h1, h⟩ := bind_eq_ok.mp h
            have e1 := ihEval st e1 r1 h1
            split at h
            · simp [throw_eq_error] at h
            · split at h
              · cases pure_eq_ok.mp h; simpa using e1
              · simp [throw_eq_error] at h
        | eNot e1 =>
            simp only [evalExpr] at h
            obtain ⟨r1, h1, h⟩ := bind_eq_ok.mp h
            have e1 := ihEval st e1 r1 h1
            split at h
            · simp [throw_eq_error] at h
            · split at h
              · cases pure_eq_ok.mp h; simpa using e1
              · simp [throw_eq_error] at h
        | eLambda args body =>
            simp only [evalExpr] at h
            cases pure_eq_ok.mp h
            simp [allocClos]
        | eObj =>
            simp only [evalExpr] at h
            cases pure_eq_ok.mp h
            simp [allocObj]
        | eMCall o m args =>
            simp only [evalExpr] at h
            exact ihCallM st o m args r h
      · -- callFunc
        intro st n args r h
        simp only [callFunc] at h
        split at h
        · exact ihPrint st args "" r h
        · split at h
          · exact ihInput st n args r h
          · obtain ⟨oa, hoa, h⟩ := bind_eq_ok.mp h
            split at h
            · simp [throw_eq_error] at h
            · obtain ⟨cd, hcd, h⟩ := bind_eq_ok.mp h
              split at h
              · simp [throw_eq_error] at h
              · obtain ⟨r1, h1, h⟩ := bind_eq_ok.mp h
                obtain ⟨r3, h3, h⟩ := bind_eq_ok.mp h
                cases pure_eq_ok.mp h
                have e1 := ihPrep st _ args _ r1 h1
                have e3 := ihRunS _ _ r3 h3
                simp only [List.length_cons] at e3
                simp [length_tail]
                omega
      · -- callPrint
        intro st args acc r h
        simp only [callPrint] at h
        split at h
        · cases pure_eq_ok.mp h; rfl
        · obtain ⟨r1, h1, h⟩ := bind_eq_ok.mp h
          split at h
          · simp [throw_eq_error] at h
          · have e1 := ihEval st _ r1 h1
            have e2 := ihPrint r1.1 _ _ r h
            omega
      · -- callInput
        intro st n args r h
        simp only [callInput] at h
        split at h
        · -- no prompt argument
          rw [pure_bind] at h
          split at h
          · simp [throw_eq_error] at h
          · split at h
            · split at h
              · cases pure_eq_ok.mp h; rfl
              · simp [throw_eq_error] at h
            · cases pure_eq_ok.mp h; rfl
        · -- one prompt argument
          obtain ⟨r1, h1, h⟩ := bind_eq_ok.mp h
          have e1 := ihEval st _ r1 h1
          split at h
          · simp [throw_eq_error, Bind.bind, Except.bind] at h
          · rw [pure_bind] at h
            split at h
            · simp [throw_eq_error] at h
            · split at h
              · split at h
                · cases pure_eq_ok.mp h; simpa using e1
                · simp [throw_eq_error] at h
              · cases pure_eq_ok.mp h; simpa using e1
        · -- more than one argument
          simp [throw_eq_error, Bind.bind, Except.bind] at h
      · -- callMethod
        intro st o m args r h
        simp only [callMethod] at h
        split at h
        · simp [throw_eq_error] at h
        · split at h
          · simp [throw_eq_error] at h
          · obtain ⟨tc, htc, h⟩ := bind_eq_ok.mp h
            split at h
            · split at h
              · simp [throw_eq_error] at h
              · split at h
                · obtain ⟨cd, hcd, h⟩ := bind_eq_ok.mp h
                  obtain ⟨r1, h1, h⟩ := bind_eq_ok.mp h
                  obtain ⟨r3, h3, h⟩ := bind_eq_ok.mp h
                  cases pure_eq_ok.mp h
                  have e1 := ihPrep st _ args _ r1 h1
                  have e3 := ihRunS _ _ r3 h3
                  simp only [List.length_cons] at e3
                  simp [length_tail]
                  omega
                · simp [throw_eq_error] at h
            · simp [throw_eq_error] at h
      · -- prepareParams
        intro st fs as2 acc r h
        simp only [prepareParams] at h
        split at h
        · simp [throw_eq_error] at h
        · exact ihBind st fs as2 acc r h
      · -- bindParams
        intro st fs as2 acc r h
        match fs, as2 with
        | [], _ =>
            simp only [bindParams] at h
            cases pure_eq_ok.mp h; rfl
        | fa :: fr, [] =>
            simp only [bindParams] at h
            cases pure_eq_ok.mp h; rfl
        | fa :: fr, a :: ar =>
            simp only [bindParams] at h
            obtain ⟨r1, h1, h⟩ := bind_eq_ok.mp h
            have e1 := ihEval st a r1 h1
            split at h
            · rw [pure_bind] at h
              have e2 := ihBind r1.1 fr ar _ r h
              omega
            · obtain ⟨r2, h2, h⟩ := bind_eq_ok.mp h
              have e2 : r2.1.env = r1.1.env :=
                (deepcopy_env_preserved f).1 r1.1 _ r2 h2
              have e3 := ihBind r2.1 fr ar _ r h
              rw [e2] at e3
              omega
      · -- assign
        intro st t e r h
        simp only [assign] at h
        obtain ⟨r1, h1, h⟩ := bind_eq_ok.mp h
        have e1 := ihEval st e r1 h1
        obtain ⟨⟨var, field⟩, hsd, h⟩ := bind_eq_ok.mp h
        clear hsd
        split at h
        · -- dotted target
          split at h
          · simp [throw_eq_error] at h
          · split at h
            · simp [throw_eq_error] at h
            · split at h
              · split at h
                · simp [throw_eq_error] at h
                · split at h
                  · simp [throw_eq_error] at h
                  · split at h
                    · obtain ⟨od, hod, h⟩ := bind_eq_ok.mp h
                      cases pure_eq_ok.mp h
                      simpa using e1
                    · simp [throw_eq_error] at h
              · split at h
                · obtain ⟨od, hod, h⟩ := bind_eq_ok.mp h
                  cases pure_eq_ok.mp h
                  simpa using e1
                · simp [throw_eq_error] at h
        · -- plain target
          split at h
          · cases pure_eq_ok.mp h
            simp [envSet_length]
            omega
          · split at h
            · split at h
              · obtain ⟨cd, hcd, h⟩ := bind_eq_ok.mp h
                rw [pure_bind] at h
                cases pure_eq_ok.mp h
                simp [envSet_length]
                omega
              · simp [throw_eq_error, Bind.bind, Except.bind] at h
            · rw [pure_bind] at h
              cases pure_eq_ok.mp h
              simp [envSet_length]
              omega
      · -- execStmt
        intro st s r h
        cases s with
        | sFCall n a =>
            simp only [execStmt] at h
            obtain ⟨r1, h1, h⟩ := bind_eq_ok.mp h
            cases pure_eq_ok.mp h
            simpa using ihCallF st n a r1 h1
        | sAssign t e =>
            simp only [execStmt] at h
            obtain ⟨r1, h1, h⟩ := bind_eq_ok.mp h
            cases pure_eq_ok.mp h
            simpa using ihAssign st t e r1 h1
        | sMCall o m a =>
            simp only [execStmt] at h
            obtain ⟨r1, h1, h⟩ := bind_eq_ok.mp h
            cases pure_eq_ok.mp h
            simpa using ihCallM st o m a r1 h1
        | sReturn e =>
            simp only [execStmt] at h
            exact ihRet st e r h
        | sIf c t e =>
            simp only [execStmt] at h
            exact ihIf st c t e r h
        | sWhile c b =>
            simp only [execStmt] at h
            exact ihWhile st c b r h
      · -- doReturn
        intro st e r h
        simp only [doReturn] at h
        split at h
        · cases pure_eq_ok.mp h; rfl
        · obtain ⟨r1, h1, h⟩ := bind_eq_ok.mp h
          obtain ⟨r2, h2, h⟩ := bind_eq_ok.mp h
          cases pure_eq_ok.mp h
          have e1 := ihEval st _ r1 h1
          have e2 : r2.1.env = r1.1.env :=
            (deepcopy_env_preserved f).1 r1.1 _ r2 h2
          simp [e2]
          omega
      · -- doIf
        intro st c t e r h
        simp only [doIf] at h
        obtain ⟨r1, h1, h⟩ := bind_eq_ok.mp h
        have e1 := ihEval st c r1 h1
        repeat' (split at h)
        all_goals
          first
            | (simp [throw_eq_error] at h)
            | (cases pure_eq_ok.mp h; simpa using e1)
            | (have e2 := ihRunS r1.1 _ r h; omega)
      · -- doWhile
        intro st c b r h
        simp only [doWhile] at h
        obtain ⟨r1, h1, h⟩ := bind_eq_ok.mp h
        have e1 := ihEval st c r1 h1
        repeat' (split at h)
        all_goals
          first
            | (simp [throw_eq_error] at h)
            | (cases pure_eq_ok.mp h; simpa using e1)
            | (obtain ⟨r2, h2, h⟩ := bind_eq_ok.mp h
               have e2 := ihRunS r1.1 b r2 h2
               split at h
               · cases pure_eq_ok.mp h
                 simp only at e2 ⊢
                 omega
               · have e3 := ihWhile r2.1 c b r h
                 omega)
      · -- runStatements
        intro st stmts r h
        simp only [runStatements] at h
        have e1 := ihRunL _ stmts r h
        simpa using e1
      · -- runStmtList
        intro st stmts r h
        simp only [runStmtList] at h
        split at h
        · cases pure_eq_ok.mp h
          simp [length_tail]
        · obtain ⟨r1, h1, h⟩ := bind_eq_ok.mp h
          have e1 := ihExec st _ r1 h1
          split at h
          · cases pure_eq_ok.mp h
            simp [length_tail]
            omega
          · have e2 := ihRunL r1.1 _ r h
            omega

/-- C8: every `__run_statements` execution (block body, branch, loop body,
function or method body) pushes exactly one scope on entry and pops it on
every successful exit path — including early exit via `return` — so the
environment chain is exactly as deep after the execution as before it. -/
theorem c8_scope_stack_balanced (fuel : Nat) (st : St) (stmts : List Stmt)
    (r : St × ExecStatus × Value)
    (h : runStatements fuel st stmts = Except.ok r) :
    r.1.env.length = st.env.length :=
  ((envLen_master fuel).2.2.2.2.2.2.2.2.2.2.2.2).1 st stmts r h

/-- C8 witness: a body that returns early out of a nested block leaves the
chain depth unchanged (depth 1 before and after). -/
theorem c8_scope_stack_balanced_witness :
    runStatements 10 (initSt [])
        [.sIf (.eBool true) [.sReturn (some (.eInt 7))] none] =
      Except.ok ({ initSt [] with env := [[]] }, .ret, intV 7) ∧
    ([[]] : Env).length = (initSt []).env.length := by
  constructor
  · rfl
  · exact c8_scope_stack_balanced 10 (initSt [])
      [.sIf (.eBool true) [.sReturn (some (.eInt 7))] none]
      ({ initSt [] with env := [[]] }, .ret, intV 7) (by rfl)

end Brewin

